import Mathlib

/-!
Verification of the mda array-file engine (`_mdaio_impl.py`) of
magland/mountainsort4: a shallow embedding of the header codec,
whole-array reader/writer, chunked reader and append engine, with
theorems settling the specification claims.

Files are modelled as `List Nat` of byte values; multi-byte integer
fields use the little-endian encodings of `struct.pack('<i')` /
`struct.pack('<q')`.  In-memory numpy buffers are modelled by `Mda`:
the element type, the shape, and the flat column-major (`order='F'`)
sequence of elements, each element being its raw bytes.  Fallible
operations (Python functions that return `None`/`False` or raise and
catch) return `Option`.
-/

/-- Little-endian byte string (length `k`) of a natural number, as laid
down by `struct.pack`. -/
def toLEBytes : Nat → Nat → List Nat
  | 0, _ => []
  | k + 1, n => (n % 256) :: toLEBytes k (n / 256)

/-- Value of a little-endian byte string. -/
def fromLEBytes : List Nat → Nat
  | [] => 0
  | b :: bs => b + 256 * fromLEBytes bs

/-- Bytes of a signed 32-bit value (two's complement, little-endian);
total counterpart of `struct.pack('<i', v)` on its accepted range. -/
def encInt32 (v : Int) : List Nat := toLEBytes 4 (v % (2 ^ 32 : Int)).toNat

/-- Bytes of a signed 64-bit value (two's complement, little-endian). -/
def encInt64 (v : Int) : List Nat := toLEBytes 8 (v % (2 ^ 64 : Int)).toNat

/-- Embeds `_write_int32`: `struct.pack('<i', val)` raises (caught by the
callers, which then report failure) unless `val` fits in int32. -/
def _write_int32 (v : Int) : Option (List Nat) :=
  if -(2 ^ 31) ≤ v ∧ v < 2 ^ 31 then some (encInt32 v) else none

/-- Embeds `_write_int64`. -/
def _write_int64 (v : Int) : Option (List Nat) :=
  if -(2 ^ 63) ≤ v ∧ v < 2 ^ 63 then some (encInt64 v) else none

/-- Embeds `_read_int32`: `struct.unpack('<i', f.read(4))` fails when
fewer than 4 bytes remain; otherwise yields the signed value and the
rest of the stream. -/
def _read_int32 (s : List Nat) : Option (Int × List Nat) :=
  if 4 ≤ s.length then
    let u := fromLEBytes (s.take 4)
    some ((if u % 2 ^ 32 < 2 ^ 31 then ((u % 2 ^ 32 : Nat) : Int)
           else ((u % 2 ^ 32 : Nat) : Int) - 2 ^ 32), s.drop 4)
  else none

/-- Embeds `_read_int64`. -/
def _read_int64 (s : List Nat) : Option (Int × List Nat) :=
  if 8 ≤ s.length then
    let u := fromLEBytes (s.take 8)
    some ((if u % 2 ^ 64 < 2 ^ 63 then ((u % 2 ^ 64 : Nat) : Int)
           else ((u % 2 ^ 64 : Nat) : Int) - 2 ^ 64), s.drop 8)
  else none

/-- The closed enumeration of element types supported by the format. -/
inductive Dt
  | uint8 | float32 | int16 | int32 | uint16 | float64 | uint32
deriving DecidableEq

/-- Embeds `_dt_code_from_dt` (total on the enumeration; the Python
`None` branch is unreachable for supported types). -/
def _dt_code_from_dt : Dt → Int
  | .uint8 => -2
  | .float32 => -3
  | .int16 => -4
  | .int32 => -5
  | .uint16 => -6
  | .float64 => -7
  | .uint32 => -8

/-- Embeds `_dt_from_dt_code`: unknown codes give `None`. -/
def _dt_from_dt_code (c : Int) : Option Dt :=
  if c = -2 then some .uint8
  else if c = -3 then some .float32
  else if c = -4 then some .int16
  else if c = -5 then some .int32
  else if c = -6 then some .uint16
  else if c = -7 then some .float64
  else if c = -8 then some .uint32
  else none

/-- Embeds `get_num_bytes_per_entry_from_dt` (total on the enumeration). -/
def get_num_bytes_per_entry_from_dt : Dt → Nat
  | .uint8 => 1
  | .float32 => 4
  | .int16 => 2
  | .int32 => 4
  | .uint16 => 2
  | .float64 => 8
  | .uint32 => 4

/-- Python's `max` over a list of ints (meaningful for nonempty lists;
`max([])` raises, which no reachable code path does since the parsed
dimension count is at least 1). -/
def listMax (l : List Int) : Int := l.foldl max (l.headD 0)

/-- Exact integer product of a dimension list. -/
def prodInt (l : List Int) : Int := l.foldl (· * ·) 1

/-- Signed 64-bit wrap-around, the behaviour of numpy int64 arithmetic. -/
def wrap64 (z : Int) : Int := (z + 2 ^ 63) % (2 ^ 64 : Int) - 2 ^ 63

/-- Embeds `np.prod` over a Python list of ints: numpy reduces in int64
with silent wrap-around at each step, which equals the signed 64-bit
wrap of the exact product. -/
def npProd (l : List Int) : Int := wrap64 (prodInt l)

/-- Embeds the `MdaHeader` object. -/
structure MdaHeader where
  uses64bitdims : Bool
  dt_code : Int
  dt : Dt
  num_bytes_per_entry : Nat
  num_dims : Nat
  dimprod : Int
  dims : List Int
  header_size : Nat
deriving DecidableEq

/-- Embeds `MdaHeader.__init__(dt0, dims0)`: wide-dimension mode is
selected when `max(dims0) > 2e9`; `num_bytes_per_entry` is derived from
the type tag; `dimprod` is `np.prod(dims0)` (int64 arithmetic). -/
def mkMdaHeader (dt0 : Dt) (dims0 : List Int) : MdaHeader :=
  let uses64bitdims := listMax dims0 > 2000000000
  { uses64bitdims := uses64bitdims
    dt_code := _dt_code_from_dt dt0
    dt := dt0
    num_bytes_per_entry := get_num_bytes_per_entry_from_dt dt0
    num_dims := dims0.length
    dimprod := npProd dims0
    dims := dims0
    header_size :=
      if uses64bitdims then 3 * 4 + dims0.length * 8 else (3 + dims0.length) * 4 }

/-- Reads `n` consecutive int32 dimension fields. -/
def readDims32 : Nat → List Nat → Option (List Int × List Nat)
  | 0, s => some ([], s)
  | n + 1, s => do
    let (d, s1) ← _read_int32 s
    let (ds, s2) ← readDims32 n s1
    some (d :: ds, s2)

/-- Reads `n` consecutive int64 dimension fields. -/
def readDims64 : Nat → List Nat → Option (List Int × List Nat)
  | 0, s => some ([], s)
  | n + 1, s => do
    let (d, s1) ← _read_int64 s
    let (ds, s2) ← readDims64 n s1
    some (d :: ds, s2)

/-- Embeds `_read_header` on the byte stream of the file: three leading
int32 fields (type code, stored bytes-per-entry — read and then unused —
and the signed dimension count), then the dimensions, 8 bytes each in
wide mode and 4 bytes otherwise.  A dimension count resolving outside
[1,6], an unknown type code, or a truncated stream yields `none`. -/
def _read_header (s : List Nat) : Option MdaHeader := do
  let (dt_code, s1) ← _read_int32 s
  let (_stored_num_bytes, s2) ← _read_int32 s1
  let (nd0, s3) ← _read_int32 s2
  let uses64bitdims := nd0 < 0
  let num_dims : Int := if nd0 < 0 then -nd0 else nd0
  if num_dims < 1 ∨ num_dims > 6 then none
  else do
    let (dims, _s4) ←
      if uses64bitdims then readDims64 num_dims.toNat s3
      else readDims32 num_dims.toNat s3
    match _dt_from_dt_code dt_code with
    | none => none
    | some dt =>
      let H := mkMdaHeader dt dims
      if uses64bitdims then
        some { H with uses64bitdims := true, header_size := 3 * 4 + H.num_dims * 8 }
      else
        some H

/-- Writes the dimension fields as int32. -/
def writeDims32 : List Int → Option (List Nat)
  | [] => some []
  | d :: ds => do
    let b ← _write_int32 d
    let bs ← writeDims32 ds
    some (b ++ bs)

/-- Writes the dimension fields as int64. -/
def writeDims64 : List Int → Option (List Nat)
  | [] => some []
  | d :: ds => do
    let b ← _write_int64 d
    let bs ← writeDims64 ds
    some (b ++ bs)

/-- Embeds `_write_header` (the bytes it lays down at the start of the
file): type code, bytes-per-entry, then — in wide mode — the negated
dimension count followed by int64 dimensions, else the dimension count
followed by int32 dimensions. -/
def _write_header_bytes (H : MdaHeader) : Option (List Nat) := do
  let b1 ← _write_int32 H.dt_code
  let b2 ← _write_int32 (H.num_bytes_per_entry : Int)
  if H.uses64bitdims then do
    let b3 ← _write_int32 (-(H.num_dims : Int))
    let bd ← writeDims64 H.dims
    some (b1 ++ b2 ++ b3 ++ bd)
  else do
    let b3 ← _write_int32 (H.num_dims : Int)
    let bd ← writeDims32 H.dims
    some (b1 ++ b2 ++ b3 ++ bd)

/-- Splits a byte string into consecutive complete `w`-byte elements
(`np.fromfile` ignores a ragged tail).  Fuel-structured so the kernel
can evaluate it. -/
def chunkGo (w : Nat) : Nat → List Nat → List (List Nat)
  | 0, _ => []
  | fuel + 1, s => if 0 < w ∧ w ≤ s.length then s.take w :: chunkGo w fuel (s.drop w) else []

/-- All complete `w`-byte elements of a byte string, in order. -/
def chunkElems (w : Nat) (s : List Nat) : List (List Nat) := chunkGo w s.length s

/-- In-memory numpy buffer: element type, shape, and the flat
column-major (`order='F'`) sequence of elements, each element given by
its raw bytes. -/
structure Mda where
  dt : Dt
  dims : List Int
  data : List (List Nat)
deriving DecidableEq

/-- Well-formed in-memory buffer: nonnegative shape, element count
matching the shape, every element of the type's byte width. -/
def Mda.WF (X : Mda) : Prop :=
  (∀ d ∈ X.dims, 0 ≤ d) ∧
  X.data.length = (prodInt X.dims).toNat ∧
  ∀ e ∈ X.data, e.length = get_num_bytes_per_entry_from_dt X.dt

/-- Embeds `readmda`: read the header, seek to `H.header_size`, read
`H.dimprod` elements (`np.fromfile` returns the complete elements
available, at most that many), reshape to `H.dims` in column-major
order.  A short read makes the reshape raise, caught as `None`; a
negative `dimprod` or a negative dimension likewise cannot reshape
(`np.reshape` corner cases for negative sizes are outside the claims,
which all constrain dimensions to be nonnegative). -/
def readmda (s : List Nat) : Option Mda := do
  let H ← _read_header s
  if 0 ≤ H.dimprod ∧ ∀ d ∈ H.dims, 0 ≤ d then
    let elems := chunkElems H.num_bytes_per_entry (s.drop H.header_size)
    if H.dimprod.toNat ≤ elems.length then
      some ⟨H.dt, H.dims, elems.take H.dimprod.toNat⟩
    else none
  else none

/-- Embeds `_writemda` applied with the buffer's own element type (the
claims write a buffer with its own type, making the `astype` a no-op,
so the element bytes are laid down unchanged): four-byte type code,
bytes-per-entry and dimension count, each dimension as four bytes, then
the column-major element bytes. -/
def _writemda (X : Mda) : Option (List Nat) := do
  let b1 ← _write_int32 (_dt_code_from_dt X.dt)
  let b2 ← _write_int32 (get_num_bytes_per_entry_from_dt X.dt : Int)
  let b3 ← _write_int32 (X.dims.length : Int)
  let bd ← writeDims32 X.dims
  some (b1 ++ b2 ++ b3 ++ bd ++ X.data.flatten)

/-- Embeds `DiskReadMda._read_chunk_1d` on a local file: seek to byte
offset `header_size + num_bytes_per_entry * i` and read `N` elements
(`np.fromfile` returns fewer when fewer remain; a negative seek raises,
caught as `None`). -/
def _read_chunk_1d (s : List Nat) (H : MdaHeader) (i : Int) (N : Nat) :
    Option (List (List Nat)) :=
  let offset : Int := (H.header_size : Int) + (H.num_bytes_per_entry : Int) * i
  if offset < 0 then none
  else some ((chunkElems H.num_bytes_per_entry (s.drop offset.toNat)).take N)

/-- Embeds `DiskReadMda.readChunk` (non-npy path).  `i2 < 0` selects the
1-axis read; otherwise the first-axis size must equal the stored first
dimension, and for 3-axis reads the second-axis size must equal the
stored second dimension, else `None` is returned before any read.  The
column-major reshape is the identity on the flat element sequence; its
size check fails on a short read (in Python that raise escapes the
caller — either way no buffer is returned). -/
def readChunk (s : List Nat) (H : MdaHeader) (i1 i2 i3 : Int) (N1 N2 N3 : Nat) :
    Option (List (List Nat)) :=
  if i2 < 0 then _read_chunk_1d s H i1 N1
  else if i3 < 0 then
    if (N1 : Int) ≠ H.dims.getD 0 0 then none
    else do
      let X ← _read_chunk_1d s H (i1 + (N1 : Int) * i2) (N1 * N2)
      if X.length = N1 * N2 then some X else none
  else
    if (N1 : Int) ≠ H.dims.getD 0 0 then none
    else if (N2 : Int) ≠ H.dims.getD 1 0 then none
    else do
      let X ← _read_chunk_1d s H (i1 + (N1 : Int) * i2 + (N1 : Int) * (N2 : Int) * i3)
        (N1 * N2 * N3)
      if X.length = N1 * N2 * N3 then some X else none

/-- Overwrites the bytes of `s` from position `off` with `b`, extending
the file when the write runs past its end (`r+b` semantics; a seek past
the end zero-fills the gap). -/
def overwriteAt (s : List Nat) (off : Nat) (b : List Nat) : List Nat :=
  (s.take off ++ List.replicate (off - s.length) 0) ++ b ++ s.drop (off + b.length)

/-- Embeds `appendmda`: read the header; reject when the number of
dimensions differs; the loop meant to check the non-final dimensions
compares `X.shape[j] != X.shape[j]` — a value against itself — so it
never rejects (kept verbatim); add the buffer's last axis onto the
stored last dimension; rewrite the header in place; seek to
`header_size + num_bytes_per_entry * num_entries_old` (with
`num_entries_old = np.product(H.dims)` taken before the update) and
write the buffer's column-major bytes there. -/
def appendmda (X : Mda) (s : List Nat) : Option (List Nat) := do
  let H ← _read_header s
  if H.dims.length ≠ X.dims.length then none
  else
    let num_entries_old := npProd H.dims
    let num_dims := H.dims.length
    if (List.range (num_dims - 1)).any
        (fun j => X.dims.getD j 0 ≠ X.dims.getD j 0) then none
    else
      let newdims := H.dims.set (num_dims - 1)
        (H.dims.getD (num_dims - 1) 0 + X.dims.getD (num_dims - 1) 0)
      let H2 := { H with dims := newdims }
      let hb ← _write_header_bytes H2
      let s1 := hb ++ s.drop hb.length
      let offset : Int := (H2.header_size : Int) +
        (H2.num_bytes_per_entry : Int) * num_entries_old
      if offset < 0 then none
      else some (overwriteAt s1 offset.toNat X.data.flatten)

/-- A well-formed array file: positive dimensions (at most six, each
below 2^63 with product below 2^63 so the 64-bit element-count
arithmetic is exact), the matching element count, elements of the
type's width, and the byte string equal to the encoded header followed
by the column-major element bytes. -/
def wfFile (dt : Dt) (dims : List Int) (data : List (List Nat)) (s : List Nat) : Prop :=
  1 ≤ dims.length ∧ dims.length ≤ 6 ∧
  (∀ d ∈ dims, 0 < d ∧ d < 2 ^ 63) ∧
  prodInt dims < 2 ^ 63 ∧
  data.length = (prodInt dims).toNat ∧
  (∀ e ∈ data, e.length = get_num_bytes_per_entry_from_dt dt) ∧
  (_write_header_bytes (mkMdaHeader dt dims)).isSome ∧
  s = (_write_header_bytes (mkMdaHeader dt dims)).getD [] ++ data.flatten


/-- Ledger of staged temporary byte buffers: the files
`_download_bytes_to_tmpfile` created and the files handed to
`os.remove`, named by creation order. -/
structure TmpState where
  created : List Nat
  removed : List Nat
deriving DecidableEq

/-- Embeds `_download_bytes_to_tmpfile`: requests bytes `[start, endpos)`
of the remote resource (Range header `bytes=start-(endpos-1)`), stages
the response body in a fresh temporary file and returns its name. -/
def _download_bytes_to_tmpfile (remote : List Nat) (start endpos : Nat)
    (st : TmpState) : List Nat × Nat × TmpState :=
  let tmp_fname := st.created.length
  ((remote.drop start).take (endpos - start), tmp_fname,
    ⟨st.created ++ [tmp_fname], st.removed⟩)

/-- Embeds `os.remove` on a staged temporary file. -/
def osRemove (fname : Nat) (st : TmpState) : TmpState :=
  ⟨st.created, st.removed ++ [fname]⟩

/-- Embeds `DiskReadMda._read_chunk_1d` on a remote (URL) source:
download the byte range for the chunk into a staged temporary file,
decode the chunk from that file at offset 0, and return.  The
`os.remove(tmp_fname)` line of the source is commented out, so no exit
path of this function removes the staged file. -/
def _read_chunk_1d_remote (remote : List Nat) (H : MdaHeader) (i N : Nat)
    (st : TmpState) : Option (List (List Nat)) × TmpState :=
  let offset := H.header_size + H.num_bytes_per_entry * i
  let (bytes, _tmp_fname, st1) :=
    _download_bytes_to_tmpfile remote offset (offset + H.num_bytes_per_entry * N) st
  (some ((chunkElems H.num_bytes_per_entry bytes).take N), st1)

/-- Embeds `_read_header` on a remote (URL) source: download the first
200 bytes, decode the header from the staged file, then remove it. -/
def _read_header_remote (remote : List Nat) (st : TmpState) :
    Option MdaHeader × TmpState :=
  let (bytes, tmp_fname, st1) := _download_bytes_to_tmpfile remote 0 200 st
  (_read_header bytes, osRemove tmp_fname st1)

/-- The property claim C9 asserts of a chunked remote read: every
temporary buffer staged during the call has been removed by the time it
returns. -/
def chunkReadDiscardsStaged (remote : List Nat) (H : MdaHeader) (i N : Nat)
    (st : TmpState) : Prop :=
  ∀ f ∈ (_read_chunk_1d_remote remote H i N st).2.created,
    f ∉ st.created → f ∈ (_read_chunk_1d_remote remote H i N st).2.removed

section ByteLemmas

theorem toLEBytes_length (k n : Nat) : (toLEBytes k n).length = k := by
  induction k generalizing n with
  | zero => rfl
  | succ k ih => simp [toLEBytes, ih]

theorem fromLEBytes_toLEBytes (k n : Nat) :
    fromLEBytes (toLEBytes k n) = n % 256 ^ k := by
  induction k generalizing n with
  | zero => simp [toLEBytes, fromLEBytes, Nat.mod_one]
  | succ k ih =>
    have h1 : n % (256 ^ (k + 1)) = n % 256 + 256 * (n / 256 % 256 ^ k) := by
      rw [pow_succ, mul_comm]
      exact Nat.mod_mul
    simp only [toLEBytes, fromLEBytes, ih]
    omega

end ByteLemmas

theorem encInt32_length (v : Int) : (encInt32 v).length = 4 :=
  toLEBytes_length 4 _

theorem encInt64_length (v : Int) : (encInt64 v).length = 8 :=
  toLEBytes_length 8 _

theorem read_int32_enc (v : Int) (rest : List Nat)
    (h1 : -(2 ^ 31) ≤ v) (h2 : v < 2 ^ 31) :
    _read_int32 (encInt32 v ++ rest) = some (v, rest) := by
  have hlen : (encInt32 v).length = 4 := encInt32_length v
  have htake : (encInt32 v ++ rest).take 4 = encInt32 v := List.take_left' hlen
  have hdrop : (encInt32 v ++ rest).drop 4 = rest := List.drop_left' hlen
  have hv : fromLEBytes (encInt32 v) = (v % (2 ^ 32 : Int)).toNat % 256 ^ 4 :=
    fromLEBytes_toLEBytes 4 _
  have hm : (v % (2 ^ 32 : Int)).toNat < 2 ^ 32 := by omega
  simp only [_read_int32, List.length_append, hlen, htake, hdrop]
  rw [if_pos (by omega), hv]
  have h256 : (256 : Nat) ^ 4 = 2 ^ 32 := by norm_num
  rw [h256, Nat.mod_eq_of_lt hm]
  split
  · simp only [Option.some.injEq, Prod.mk.injEq, and_true]
    omega
  · simp only [Option.some.injEq, Prod.mk.injEq, and_true]
    push_cast
    omega

theorem read_int64_enc (v : Int) (rest : List Nat)
    (h1 : -(2 ^ 63) ≤ v) (h2 : v < 2 ^ 63) :
    _read_int64 (encInt64 v ++ rest) = some (v, rest) := by
  have hlen : (encInt64 v).length = 8 := encInt64_length v
  have htake : (encInt64 v ++ rest).take 8 = encInt64 v := List.take_left' hlen
  have hdrop : (encInt64 v ++ rest).drop 8 = rest := List.drop_left' hlen
  have hv : fromLEBytes (encInt64 v) = (v % (2 ^ 64 : Int)).toNat % 256 ^ 8 :=
    fromLEBytes_toLEBytes 8 _
  have hm : (v % (2 ^ 64 : Int)).toNat < 2 ^ 64 := by omega
  simp only [_read_int64, List.length_append, hlen, htake, hdrop]
  rw [if_pos (by omega), hv]
  have h256 : (256 : Nat) ^ 8 = 2 ^ 64 := by norm_num
  rw [h256, Nat.mod_eq_of_lt hm]
  split
  · simp only [Option.some.injEq, Prod.mk.injEq, and_true]
    omega
  · simp only [Option.some.injEq, Prod.mk.injEq, and_true]
    push_cast
    omega

theorem write_int32_enc (v : Int) (h1 : -(2 ^ 31) ≤ v) (h2 : v < 2 ^ 31) :
    _write_int32 v = some (encInt32 v) := by
  unfold _write_int32
  rw [if_pos ⟨h1, h2⟩]

theorem write_int64_enc (v : Int) (h1 : -(2 ^ 63) ≤ v) (h2 : v < 2 ^ 63) :
    _write_int64 v = some (encInt64 v) := by
  unfold _write_int64
  rw [if_pos ⟨h1, h2⟩]

theorem write_int32_some (v : Int) (b : List Nat) (h : _write_int32 v = some b) :
    b = encInt32 v := by
  simp only [_write_int32] at h
  split at h
  · exact (Option.some.injEq _ _ ▸ h).symm
  · exact absurd h (by simp)

theorem writeDims32_enc (dims : List Int)
    (h : ∀ d ∈ dims, -(2 ^ 31) ≤ d ∧ d < 2 ^ 31) :
    writeDims32 dims = some ((dims.map encInt32).flatten) := by
  induction dims with
  | nil => rfl
  | cons d ds ih =>
    have hd := h d (by simp)
    simp only [writeDims32, write_int32_enc d hd.1 hd.2,
      ih (fun x hx => h x (by simp [hx])), List.map_cons,
      List.flatten_cons, Option.bind_eq_bind, Option.some_bind]

theorem writeDims64_enc (dims : List Int)
    (h : ∀ d ∈ dims, -(2 ^ 63) ≤ d ∧ d < 2 ^ 63) :
    writeDims64 dims = some ((dims.map encInt64).flatten) := by
  induction dims with
  | nil => rfl
  | cons d ds ih =>
    have hd := h d (by simp)
    simp only [writeDims64, write_int64_enc d hd.1 hd.2,
      ih (fun x hx => h x (by simp [hx])), List.map_cons,
      List.flatten_cons, Option.bind_eq_bind, Option.some_bind]

theorem readDims32_enc (dims : List Int) (rest : List Nat)
    (h : ∀ d ∈ dims, -(2 ^ 31) ≤ d ∧ d < 2 ^ 31) :
    readDims32 dims.length ((dims.map encInt32).flatten ++ rest) =
      some (dims, rest) := by
  induction dims with
  | nil => rfl
  | cons d ds ih =>
    have hd := h d (by simp)
    simp only [List.length_cons, List.map_cons, List.flatten_cons, readDims32,
      List.append_assoc, read_int32_enc d _ hd.1 hd.2,
      ih (fun x hx => h x (by simp [hx])), Option.bind_eq_bind, Option.some_bind]

theorem readDims64_enc (dims : List Int) (rest : List Nat)
    (h : ∀ d ∈ dims, -(2 ^ 63) ≤ d ∧ d < 2 ^ 63) :
    readDims64 dims.length ((dims.map encInt64).flatten ++ rest) =
      some (dims, rest) := by
  induction dims with
  | nil => rfl
  | cons d ds ih =>
    have hd := h d (by simp)
    simp only [List.length_cons, List.map_cons, List.flatten_cons, readDims64,
      List.append_assoc, read_int64_enc d _ hd.1 hd.2,
      ih (fun x hx => h x (by simp [hx])), Option.bind_eq_bind, Option.some_bind]

theorem foldl_max_le_iff (l : List Int) (a c : Int) :
    l.foldl max a ≤ c ↔ a ≤ c ∧ ∀ x ∈ l, x ≤ c := by
  induction l generalizing a with
  | nil => simp
  | cons b t ih => simp [List.foldl_cons, ih, max_le_iff, and_assoc]

theorem listMax_le_iff (a : Int) (t : List Int) (c : Int) :
    listMax (a :: t) ≤ c ↔ ∀ x ∈ a :: t, x ≤ c := by
  have h : listMax (a :: t) = t.foldl max a := by
    simp [listMax, List.foldl_cons]
  rw [h, foldl_max_le_iff]
  simp

theorem le_listMax (a : Int) (t : List Int) (x : Int) (hx : x ∈ a :: t) :
    x ≤ listMax (a :: t) :=
  ((listMax_le_iff a t (listMax (a :: t))).mp le_rfl) x hx

theorem listMax_lt_iff (a : Int) (t : List Int) (c : Int) :
    c < listMax (a :: t) ↔ ∃ x ∈ a :: t, c < x := by
  rw [← not_le, listMax_le_iff]
  push_neg
  rfl

theorem dt_code_roundtrip (dt : Dt) :
    _dt_from_dt_code (_dt_code_from_dt dt) = some dt := by
  cases dt <;> rfl

theorem dt_code_bounds (dt : Dt) :
    -(2 ^ 31) ≤ _dt_code_from_dt dt ∧ _dt_code_from_dt dt < 2 ^ 31 := by
  cases dt <;> constructor <;> decide

theorem width_pos (dt : Dt) : 0 < get_num_bytes_per_entry_from_dt dt := by
  cases dt <;> decide

theorem width_bounds (dt : Dt) :
    -(2 ^ 31) ≤ (get_num_bytes_per_entry_from_dt dt : Int) ∧
      (get_num_bytes_per_entry_from_dt dt : Int) < 2 ^ 31 := by
  cases dt <;> constructor <;> decide

theorem flatten_map_enc32_length (dims : List Int) :
    ((dims.map encInt32).flatten).length = 4 * dims.length := by
  induction dims with
  | nil => rfl
  | cons d ds ih => simp [ih, encInt32_length]; ring

theorem flatten_map_enc64_length (dims : List Int) :
    ((dims.map encInt64).flatten).length = 8 * dims.length := by
  induction dims with
  | nil => rfl
  | cons d ds ih => simp [ih, encInt64_length]; ring

theorem mk_uses64 (dt : Dt) (dims : List Int) :
    (mkMdaHeader dt dims).uses64bitdims = decide (listMax dims > 2000000000) := rfl

theorem write_header_bytes_eq (dt : Dt) (dims : List Int)
    (h2 : dims.length ≤ 6)
    (hd : ∀ d ∈ dims, 0 ≤ d ∧ d < 2 ^ 63) :
    _write_header_bytes (mkMdaHeader dt dims) =
      some (encInt32 (_dt_code_from_dt dt) ++
        encInt32 (get_num_bytes_per_entry_from_dt dt) ++
        (if listMax dims > 2000000000 then
          encInt32 (-(dims.length : Int)) ++ (dims.map encInt64).flatten
         else
          encInt32 (dims.length : Int) ++ (dims.map encInt32).flatten)) := by
  have hcode := dt_code_bounds dt
  have hwid := width_bounds dt
  have hc : (mkMdaHeader dt dims).dt_code = _dt_code_from_dt dt := rfl
  have hn : (mkMdaHeader dt dims).num_bytes_per_entry =
      get_num_bytes_per_entry_from_dt dt := rfl
  have hnd : (mkMdaHeader dt dims).num_dims = dims.length := rfl
  have hdm2 : (mkMdaHeader dt dims).dims = dims := rfl
  by_cases hwide : listMax dims > 2000000000
  · have hu : (mkMdaHeader dt dims).uses64bitdims = true := by
      simp [mkMdaHeader, hwide]
    rw [if_pos hwide]
    unfold _write_header_bytes
    rw [hc, hn, hu, hnd, hdm2, write_int32_enc _ hcode.1 hcode.2,
      write_int32_enc _ hwid.1 hwid.2]
    rw [write_int32_enc (-(dims.length : Int)) (by omega) (by omega),
      writeDims64_enc dims (fun d hdm => ⟨by have := (hd d hdm).1; omega, (hd d hdm).2⟩)]
    rfl
  · have hnarrow : ∀ d ∈ dims, -(2 ^ 31) ≤ d ∧ d < 2 ^ 31 := by
      intro d hdm
      have h0 := (hd d hdm).1
      constructor
      · omega
      · cases dims with
        | nil => simp at hdm
        | cons a t =>
          have hle := le_listMax a t d hdm
          omega
    have hu : (mkMdaHeader dt dims).uses64bitdims = false := by
      simp [mkMdaHeader, hwide]
    rw [if_neg hwide]
    unfold _write_header_bytes
    rw [hc, hn, hu, hnd, hdm2, write_int32_enc _ hcode.1 hcode.2,
      write_int32_enc _ hwid.1 hwid.2]
    rw [write_int32_enc ((dims.length : Int)) (by omega) (by omega),
      writeDims32_enc dims hnarrow]
    rfl

theorem read_header_narrow (dt : Dt) (w : Int) (dims : List Int) (rest : List Nat)
    (hw1 : -(2 ^ 31) ≤ w) (hw2 : w < 2 ^ 31)
    (h1 : 1 ≤ dims.length) (h2 : dims.length ≤ 6)
    (hd : ∀ d ∈ dims, 0 ≤ d ∧ d < 2 ^ 31) :
    _read_header (encInt32 (_dt_code_from_dt dt) ++ (encInt32 w ++
      (encInt32 (dims.length : Int) ++ ((dims.map encInt32).flatten ++ rest)))) =
      some (mkMdaHeader dt dims) := by
  have hcode := dt_code_bounds dt
  unfold _read_header
  rw [read_int32_enc _ _ hcode.1 hcode.2]
  simp only [Option.bind_eq_bind, Option.some_bind]
  rw [read_int32_enc _ _ hw1 hw2]
  simp only [Option.some_bind]
  rw [read_int32_enc ((dims.length : Int)) _ (by omega) (by omega)]
  simp only [Option.some_bind]
  have hnd : ¬ ((dims.length : Int) < 0) := by omega
  simp only [if_neg hnd]
  rw [if_neg (by omega : ¬ ((dims.length : Int) < 1 ∨ (dims.length : Int) > 6))]
  rw [Int.toNat_natCast,
    readDims32_enc dims rest (fun d hdm => ⟨by have := (hd d hdm).1; omega, (hd d hdm).2⟩),
    dt_code_roundtrip dt]
  simp only [Option.some_bind]

theorem read_header_wide (dt : Dt) (w : Int) (dims : List Int) (rest : List Nat)
    (hw1 : -(2 ^ 31) ≤ w) (hw2 : w < 2 ^ 31)
    (h1 : 1 ≤ dims.length) (h2 : dims.length ≤ 6)
    (hd : ∀ d ∈ dims, 0 ≤ d ∧ d < 2 ^ 63) :
    _read_header (encInt32 (_dt_code_from_dt dt) ++ (encInt32 w ++
      (encInt32 (-(dims.length : Int)) ++ ((dims.map encInt64).flatten ++ rest)))) =
      some { mkMdaHeader dt dims with uses64bitdims := true, header_size := 3 * 4 + (mkMdaHeader dt dims).num_dims * 8 } := by
  have hcode := dt_code_bounds dt
  unfold _read_header
  rw [read_int32_enc _ _ hcode.1 hcode.2]
  simp only [Option.bind_eq_bind, Option.some_bind]
  rw [read_int32_enc _ _ hw1 hw2]
  simp only [Option.some_bind]
  rw [read_int32_enc (-(dims.length : Int)) _ (by omega) (by omega)]
  simp only [Option.some_bind]
  have hnd : (-(dims.length : Int)) < 0 := by omega
  simp only [if_pos hnd, neg_neg]
  rw [if_neg (by omega : ¬ ((dims.length : Int) < 1 ∨ (dims.length : Int) > 6))]
  rw [Int.toNat_natCast,
    readDims64_enc dims rest (fun d hdm => ⟨by have := (hd d hdm).1; omega, (hd d hdm).2⟩),
    dt_code_roundtrip dt]
  simp only [Option.some_bind]

theorem wide_header_collapse (dt : Dt) (dims : List Int)
    (hwide : listMax dims > 2000000000) :
    ({ mkMdaHeader dt dims with uses64bitdims := true, header_size := 3 * 4 + (mkMdaHeader dt dims).num_dims * 8 } : MdaHeader) = mkMdaHeader dt dims := by
  simp [mkMdaHeader, hwide]

theorem chunkGo_flatten (w : Nat) (hw : 0 < w) (L : List (List Nat))
    (hL : ∀ e ∈ L, e.length = w) :
    ∀ fuel, L.flatten.length ≤ fuel → chunkGo w fuel L.flatten = L := by
  induction L with
  | nil =>
    intro fuel _
    cases fuel with
    | zero => rfl
    | succ f => simp [chunkGo, hw]; omega
  | cons e t ih =>
    intro fuel hfuel
    have he : e.length = w := hL e (by simp)
    have hlen : (e :: t).flatten.length = w + t.flatten.length := by
      simp [he]
    cases fuel with
    | zero => omega
    | succ f =>
      have hcond : 0 < w ∧ w ≤ (e :: t).flatten.length := ⟨hw, by omega⟩
      have htake : ((e :: t).flatten).take w = e := by
        rw [List.flatten_cons]
        exact List.take_left' he
      have hdrop : ((e :: t).flatten).drop w = t.flatten := by
        rw [List.flatten_cons]
        exact List.drop_left' he
      rw [chunkGo, if_pos hcond, htake, hdrop,
        ih (fun x hx => hL x (by simp [hx])) f (by omega)]

theorem chunkElems_flatten (w : Nat) (hw : 0 < w) (L : List (List Nat))
    (hL : ∀ e ∈ L, e.length = w) : chunkElems w L.flatten = L :=
  chunkGo_flatten w hw L hL _ le_rfl

theorem flatten_length_uniform (w : Nat) (L : List (List Nat))
    (hL : ∀ e ∈ L, e.length = w) : L.flatten.length = w * L.length := by
  induction L with
  | nil => simp
  | cons e t ih =>
    have he : e.length = w := hL e (by simp)
    simp [he, ih (fun x hx => hL x (by simp [hx]))]
    ring

theorem flatten_drop_blocks (w : Nat) (L : List (List Nat))
    (hL : ∀ e ∈ L, e.length = w) (i : Nat) :
    L.flatten.drop (w * i) = (L.drop i).flatten := by
  induction i generalizing L with
  | zero => simp
  | succ i ih =>
    cases L with
    | nil => simp
    | cons e t =>
      have he : e.length = w := hL e (by simp)
      have h1 : w * (i + 1) = e.length + w * i := by rw [he]; ring
      rw [List.flatten_cons, h1, List.drop_append,
        ih t (fun x hx => hL x (by simp [hx]))]
      simp

theorem prodInt_eq_prod (l : List Int) : prodInt l = l.prod := by
  rw [List.prod_eq_foldl]
  rfl

theorem prodInt_concat (front : List Int) (d : Int) :
    prodInt (front ++ [d]) = prodInt front * d := by
  simp [prodInt_eq_prod, List.prod_append]

theorem prodInt_nonneg (l : List Int) (h : ∀ d ∈ l, 0 ≤ d) :
    0 ≤ prodInt l := by
  rw [prodInt_eq_prod]
  induction l with
  | nil => simp
  | cons a t ih =>
    rw [List.prod_cons]
    exact mul_nonneg (h a (by simp)) (ih (fun d hd => h d (by simp [hd])))

theorem wrap64_exact (z : Int) (h1 : -(2 ^ 63) ≤ z) (h2 : z < 2 ^ 63) :
    wrap64 z = z := by
  unfold wrap64
  omega

theorem npProd_exact (l : List Int) (h : ∀ d ∈ l, 0 ≤ d)
    (hlt : prodInt l < 2 ^ 63) : npProd l = prodInt l := by
  unfold npProd
  exact wrap64_exact _ (by have := prodInt_nonneg l h; omega) hlt

theorem getD_concat_self (front : List Int) (d x : Int) :
    (front ++ [d]).getD front.length x = d := by
  induction front with
  | nil => rfl
  | cons a t ih => simp [ih]

theorem set_concat_self (front : List Int) (d v : Int) :
    (front ++ [d]).set front.length v = front ++ [v] := by
  induction front with
  | nil => rfl
  | cons a t ih => simp [ih]

/-- The explicit byte string of the encoded header of `mkMdaHeader dt dims`. -/
def headerBytes (dt : Dt) (dims : List Int) : List Nat :=
  encInt32 (_dt_code_from_dt dt) ++
    encInt32 (get_num_bytes_per_entry_from_dt dt) ++
    (if listMax dims > 2000000000 then
      encInt32 (-(dims.length : Int)) ++ (dims.map encInt64).flatten
     else
      encInt32 (dims.length : Int) ++ (dims.map encInt32).flatten)

theorem narrow_dims_bounds (dims : List Int)
    (hd : ∀ d ∈ dims, 0 ≤ d ∧ d < 2 ^ 63)
    (hwide : ¬ listMax dims > 2000000000) :
    ∀ d ∈ dims, 0 ≤ d ∧ d < 2 ^ 31 := by
  intro d hdm
  refine ⟨(hd d hdm).1, ?_⟩
  cases dims with
  | nil => simp at hdm
  | cons a t =>
    have hle := le_listMax a t d hdm
    omega

theorem headerBytes_length (dt : Dt) (dims : List Int) :
    (headerBytes dt dims).length = (mkMdaHeader dt dims).header_size := by
  by_cases hwide : listMax dims > 2000000000
  · rw [headerBytes, if_pos hwide]
    simp only [List.length_append, encInt32_length, flatten_map_enc64_length]
    simp [mkMdaHeader, hwide]
    ring
  · rw [headerBytes, if_neg hwide]
    simp only [List.length_append, encInt32_length, flatten_map_enc32_length]
    simp [mkMdaHeader, hwide]
    ring

theorem read_header_headerBytes (dt : Dt) (dims : List Int) (rest : List Nat)
    (h1 : 1 ≤ dims.length) (h2 : dims.length ≤ 6)
    (hd : ∀ d ∈ dims, 0 ≤ d ∧ d < 2 ^ 63) :
    _read_header (headerBytes dt dims ++ rest) = some (mkMdaHeader dt dims) := by
  have hwid := width_bounds dt
  by_cases hwide : listMax dims > 2000000000
  · have h := read_header_wide dt (get_num_bytes_per_entry_from_dt dt) dims rest
      hwid.1 hwid.2 h1 h2 hd
    rw [wide_header_collapse dt dims hwide] at h
    rw [headerBytes, if_pos hwide]
    simpa [List.append_assoc] using h
  · have h := read_header_narrow dt (get_num_bytes_per_entry_from_dt dt) dims rest
      hwid.1 hwid.2 h1 h2 (narrow_dims_bounds dims hd hwide)
    rw [headerBytes, if_neg hwide]
    simpa [List.append_assoc] using h

theorem wfFile_s (dt : Dt) (dims : List Int) (data : List (List Nat)) (s : List Nat)
    (h : wfFile dt dims data s) : s = headerBytes dt dims ++ data.flatten := by
  obtain ⟨h1, h2, h3, h4, h5, h6, h7, h8⟩ := h
  rw [h8, write_header_bytes_eq dt dims h2
    (fun d hdm => ⟨le_of_lt (h3 d hdm).1, (h3 d hdm).2⟩)]
  rfl

theorem read_header_wfFile (dt : Dt) (dims : List Int) (data : List (List Nat))
    (s : List Nat) (h : wfFile dt dims data s) :
    _read_header s = some (mkMdaHeader dt dims) := by
  obtain ⟨h1, h2, h3, h4, h5, h6, h7, h8⟩ := h
  rw [wfFile_s dt dims data s ⟨h1, h2, h3, h4, h5, h6, h7, h8⟩]
  exact read_header_headerBytes dt dims data.flatten h1 h2
    (fun d hdm => ⟨le_of_lt (h3 d hdm).1, (h3 d hdm).2⟩)

theorem readmda_encoded (dt : Dt) (dims : List Int) (data : List (List Nat))
    (h1 : 1 ≤ dims.length) (h2 : dims.length ≤ 6)
    (hd : ∀ d ∈ dims, 0 ≤ d ∧ d < 2 ^ 63)
    (hprod : prodInt dims < 2 ^ 63)
    (hdata : data.length = (prodInt dims).toNat)
    (hwidths : ∀ e ∈ data, e.length = get_num_bytes_per_entry_from_dt dt) :
    readmda (headerBytes dt dims ++ data.flatten) = some ⟨dt, dims, data⟩ := by
  have hdec := read_header_headerBytes dt dims data.flatten h1 h2 hd
  have hnn : ∀ d ∈ dims, 0 ≤ d := fun d hdm => (hd d hdm).1
  have hpn : npProd dims = prodInt dims := npProd_exact dims hnn hprod
  have hp0 : 0 ≤ prodInt dims := prodInt_nonneg dims hnn
  have hdp : (mkMdaHeader dt dims).dimprod = prodInt dims := by
    show npProd dims = prodInt dims
    exact hpn
  have hdims : (mkMdaHeader dt dims).dims = dims := rfl
  have hnb : (mkMdaHeader dt dims).num_bytes_per_entry =
      get_num_bytes_per_entry_from_dt dt := rfl
  have hdt : (mkMdaHeader dt dims).dt = dt := rfl
  unfold readmda
  rw [hdec]
  simp only [Option.bind_eq_bind, Option.some_bind]
  rw [if_pos (by rw [hdp, hdims]; exact ⟨hp0, hnn⟩ : 0 ≤ (mkMdaHeader dt dims).dimprod ∧ ∀ d ∈ (mkMdaHeader dt dims).dims, 0 ≤ d)]
  rw [List.drop_left' (headerBytes_length dt dims), hnb,
    chunkElems_flatten _ (width_pos dt) data hwidths, hdp, hdims, hdt]
  rw [if_pos (by omega : (prodInt dims).toNat ≤ data.length)]
  rw [show (prodInt dims).toNat = data.length from by omega, List.take_length]

theorem writemda_eq (X : Mda)
    (hd : ∀ d ∈ X.dims, -(2 ^ 31) ≤ d ∧ d < 2 ^ 31)
    (hlen31 : (X.dims.length : Int) < 2 ^ 31) :
    _writemda X = some (encInt32 (_dt_code_from_dt X.dt) ++
      (encInt32 (get_num_bytes_per_entry_from_dt X.dt) ++
      (encInt32 (X.dims.length : Int) ++
      ((X.dims.map encInt32).flatten ++ X.data.flatten)))) := by
  have hcode := dt_code_bounds X.dt
  have hwid := width_bounds X.dt
  unfold _writemda
  rw [write_int32_enc _ hcode.1 hcode.2, write_int32_enc _ hwid.1 hwid.2,
    write_int32_enc _ (by omega) hlen31, writeDims32_enc X.dims hd]
  rfl

theorem writeDims32_some (ds : List Int) (b : List Nat)
    (h : writeDims32 ds = some b) : b = (ds.map encInt32).flatten := by
  induction ds generalizing b with
  | nil =>
    simp only [writeDims32, Option.some.injEq] at h
    simp [h.symm]
  | cons d t ih =>
    simp only [writeDims32, Option.bind_eq_bind, Option.bind_eq_some,
      Option.some.injEq] at h
    obtain ⟨b1, hb1, bt, hbt, hs⟩ := h
    rw [← hs, write_int32_some d b1 hb1, ih bt hbt]
    simp

theorem writemda_some (X : Mda) (s : List Nat) (h : _writemda X = some s) :
    s = encInt32 (_dt_code_from_dt X.dt) ++
      (encInt32 (get_num_bytes_per_entry_from_dt X.dt) ++
      (encInt32 (X.dims.length : Int) ++
      ((X.dims.map encInt32).flatten ++ X.data.flatten))) := by
  simp only [_writemda, Option.bind_eq_bind, Option.bind_eq_some,
    Option.some.injEq] at h
  obtain ⟨b1, hb1, b2, hb2, b3, hb3, bd, hbd, hs⟩ := h
  rw [← hs, write_int32_some _ _ hb1, write_int32_some _ _ hb2,
    write_int32_some _ _ hb3, writeDims32_some _ _ hbd]
  simp [List.append_assoc]

theorem read_chunk_wf (dt : Dt) (dims : List Int) (data : List (List Nat))
    (s : List Nat) (h : wfFile dt dims data s) (start count : Nat) :
    _read_chunk_1d s (mkMdaHeader dt dims) (start : Int) count =
      some ((data.drop start).take count) := by
  obtain ⟨h1, h2, h3, h4, h5, h6, h7, h8⟩ := h
  have hs := wfFile_s dt dims data s ⟨h1, h2, h3, h4, h5, h6, h7, h8⟩
  have hnb : (mkMdaHeader dt dims).num_bytes_per_entry =
      get_num_bytes_per_entry_from_dt dt := rfl
  unfold _read_chunk_1d
  rw [hnb]
  have hmul : (0 : Int) ≤ (get_num_bytes_per_entry_from_dt dt : Int) * (start : Int) := by
    positivity
  have hoff : ¬ (((mkMdaHeader dt dims).header_size : Int) +
      (get_num_bytes_per_entry_from_dt dt : Int) * (start : Int) < 0) := by
    omega
  rw [if_neg hoff]
  have htn : (((mkMdaHeader dt dims).header_size : Int) +
      (get_num_bytes_per_entry_from_dt dt : Int) * (start : Int)).toNat =
      (headerBytes dt dims).length + get_num_bytes_per_entry_from_dt dt * start := by
    rw [headerBytes_length dt dims]
    omega
  rw [htn, hs, List.drop_append, flatten_drop_blocks _ data h6 start,
    chunkElems_flatten _ (width_pos dt) (data.drop start)
      (fun e he => h6 e (List.drop_subset start data he))]

theorem listMax_le_of_all (l : List Int) (hne : l ≠ []) (c : Int)
    (h : ∀ x ∈ l, x ≤ c) : listMax l ≤ c := by
  cases l with
  | nil => exact absurd rfl hne
  | cons a t => exact (listMax_le_iff a t c).mpr h

theorem lt_listMax_of_mem (l : List Int) (c x : Int) (hx : x ∈ l) (hcx : c < x) :
    c < listMax l := by
  cases l with
  | nil => simp at hx
  | cons a t => exact lt_of_lt_of_le hcx (le_listMax a t x hx)

theorem overwriteAt_append (s b : List Nat) : overwriteAt s s.length b = s ++ b := by
  unfold overwriteAt
  rw [List.take_length, Nat.sub_self, List.replicate_zero,
    List.drop_eq_nil_of_le (by omega)]
  simp

theorem read_chunk_offset_form (s : List Nat) (H : MdaHeader) (start count : Nat) :
    _read_chunk_1d s H (start : Int) count =
      some ((chunkElems H.num_bytes_per_entry
        (s.drop (H.header_size + H.num_bytes_per_entry * start))).take count) := by
  unfold _read_chunk_1d
  have hmul : (0 : Int) ≤ (H.num_bytes_per_entry : Int) * (start : Int) := by
    positivity
  rw [if_neg (by omega)]
  have htn : (((H.header_size : Int)) + (H.num_bytes_per_entry : Int) * (start : Int)).toNat =
      H.header_size + H.num_bytes_per_entry * start := by
    omega
  rw [htn]

theorem write_header_bytes_update (dt : Dt) (dims nd : List Int)
    (h2 : dims.length ≤ 6)
    (hnd : ∀ d ∈ nd, 0 ≤ d ∧ d < 2 ^ 63)
    (hnarrow : ¬ listMax dims > 2000000000 → ∀ d ∈ nd, d < 2 ^ 31) :
    _write_header_bytes { mkMdaHeader dt dims with dims := nd } =
      some (encInt32 (_dt_code_from_dt dt) ++
        encInt32 (get_num_bytes_per_entry_from_dt dt) ++
        (if listMax dims > 2000000000 then
          encInt32 (-(dims.length : Int)) ++ (nd.map encInt64).flatten
         else
          encInt32 (dims.length : Int) ++ (nd.map encInt32).flatten)) := by
  have hcode := dt_code_bounds dt
  have hwid := width_bounds dt
  have hc : ({ mkMdaHeader dt dims with dims := nd }).dt_code = _dt_code_from_dt dt := rfl
  have hn : ({ mkMdaHeader dt dims with dims := nd }).num_bytes_per_entry =
      get_num_bytes_per_entry_from_dt dt := rfl
  have hnd2 : ({ mkMdaHeader dt dims with dims := nd }).num_dims = dims.length := rfl
  have hdm2 : ({ mkMdaHeader dt dims with dims := nd }).dims = nd := rfl
  by_cases hwide : listMax dims > 2000000000
  · have hu : ({ mkMdaHeader dt dims with dims := nd }).uses64bitdims = true := by
      simp [mkMdaHeader, hwide]
    rw [if_pos hwide]
    unfold _write_header_bytes
    rw [hc, hn, hu, hnd2, hdm2, write_int32_enc _ hcode.1 hcode.2,
      write_int32_enc _ hwid.1 hwid.2]
    rw [write_int32_enc (-(dims.length : Int)) (by omega) (by omega),
      writeDims64_enc nd (fun d hdm => ⟨by have := (hnd d hdm).1; omega, (hnd d hdm).2⟩)]
    rfl
  · have hu : ({ mkMdaHeader dt dims with dims := nd }).uses64bitdims = false := by
      simp [mkMdaHeader, hwide]
    rw [if_neg hwide]
    unfold _write_header_bytes
    rw [hc, hn, hu, hnd2, hdm2, write_int32_enc _ hcode.1 hcode.2,
      write_int32_enc _ hwid.1 hwid.2]
    rw [write_int32_enc ((dims.length : Int)) (by omega) (by omega),
      writeDims32_enc nd (fun d hdm =>
        ⟨by have := (hnd d hdm).1; omega, hnarrow hwide d hdm⟩)]
    rfl

/-- Claim C7: `decode_header` fails (returns `none`, never a default
header) whenever the signed dimension-count field resolves to a count
outside [1,6], or the element type code is not in the closed set
{-2,...,-8} (the latter expressed as `_dt_from_dt_code` yielding
`none`). -/
theorem C7_decode_rejects (s r1 r2 r3 : List Nat) (c1 w nd : Int)
    (h1 : _read_int32 s = some (c1, r1))
    (h2 : _read_int32 r1 = some (w, r2))
    (h3 : _read_int32 r2 = some (nd, r3))
    (hbad : ((if nd < 0 then -nd else nd) < 1 ∨
        (if nd < 0 then -nd else nd) > 6) ∨
      _dt_from_dt_code c1 = none) :
    _read_header s = none := by
  unfold _read_header
  rw [h1]
  simp only [Option.bind_eq_bind, Option.some_bind]
  rw [h2]
  simp only [Option.some_bind]
  rw [h3]
  simp only [Option.some_bind]
  rcases hbad with hcnt | hdt
  · rw [if_pos hcnt]
  · by_cases hcnt : ((if nd < 0 then -nd else nd) < 1 ∨
        (if nd < 0 then -nd else nd) > 6)
    · rw [if_pos hcnt]
    · rw [if_neg hcnt]
      by_cases hneg : nd < 0
      · simp only [if_pos hneg]
        cases hread : readDims64 (-nd).toNat r3 with
        | none => simp [hread]
        | some p => simp [hread, hdt]
      · simp only [if_neg hneg]
        cases hread : readDims32 nd.toNat r3 with
        | none => simp [hread]
        | some p => simp [hread, hdt]

/-- Witness for C7 at a concrete stream: type code 0 (unknown) and a
dimension-count field of 7 — the decode returns `none`. -/
theorem C7_decode_rejects_witness :
    _read_int32 (encInt32 0 ++ (encInt32 4 ++ encInt32 7)) =
        some (0, encInt32 4 ++ encInt32 7) ∧
    _read_header (encInt32 0 ++ (encInt32 4 ++ encInt32 7)) = none :=
  ⟨by decide, C7_decode_rejects (encInt32 0 ++ (encInt32 4 ++ encInt32 7))
    (encInt32 4 ++ encInt32 7) (encInt32 7) [] 0 4 7 (by decide) (by decide)
    (by decide) (Or.inl (by decide))⟩

/-- Claim C8: a 2-axis `readChunk` whose first-axis size differs from the
stored first dimension is rejected with `none` before any read, and a
3-axis call whose first- or second-axis size differs from the stored
first or second dimension is likewise rejected. -/
theorem C8_readChunk_rejects (s : List Nat) (H : MdaHeader) (i1 i2 i3 : Int)
    (N1 N2 N3 : Nat) :
    (0 ≤ i2 → i3 < 0 → (N1 : Int) ≠ H.dims.getD 0 0 →
      readChunk s H i1 i2 i3 N1 N2 N3 = none) ∧
    (0 ≤ i2 → 0 ≤ i3 →
      ((N1 : Int) ≠ H.dims.getD 0 0 ∨ (N2 : Int) ≠ H.dims.getD 1 0) →
      readChunk s H i1 i2 i3 N1 N2 N3 = none) := by
  constructor
  · intro hi2 hi3 hN1
    unfold readChunk
    rw [if_neg (by omega), if_pos hi3, if_pos hN1]
  · intro hi2 hi3 hbad
    unfold readChunk
    rw [if_neg (by omega), if_neg (by omega)]
    by_cases hN1 : (N1 : Int) ≠ H.dims.getD 0 0
    · rw [if_pos hN1]
    · rw [if_neg hN1]
      rw [if_pos (by tauto)]

/-- Witness for C8: a stored 2x3 header rejects a 2-axis read with
first-axis size 5 and a 3-axis read with second-axis size 7. -/
theorem C8_readChunk_rejects_witness :
    readChunk [] (mkMdaHeader Dt.uint8 [2, 3]) 0 0 (-1) 5 1 1 = none ∧
    readChunk [] (mkMdaHeader Dt.uint8 [2, 3]) 0 0 0 2 7 1 = none :=
  ⟨(C8_readChunk_rejects [] (mkMdaHeader Dt.uint8 [2, 3]) 0 0 (-1) 5 1 1).1
      (by decide) (by decide) (by decide),
    (C8_readChunk_rejects [] (mkMdaHeader Dt.uint8 [2, 3]) 0 0 0 2 7 1).2
      (by decide) (by decide) (Or.inr (by decide))⟩

/-- Concrete demonstration file for C9: a one-dimensional two-entry
uint8 array file served from a remote URL. -/
def c9remote : List Nat := headerBytes Dt.uint8 [2] ++ [7, 9]

/-- Counterexample for claim C9: a chunked read from a remote source
stages its byte range in a temporary file `0` but does not remove it on
the return path — the staged buffer is not discarded before the read
returns (the `os.remove` in the source is commented out). -/
theorem C9_counterexample :
    ¬ chunkReadDiscardsStaged c9remote (mkMdaHeader Dt.uint8 [2]) 0 1
      ⟨[], []⟩ := by
  unfold chunkReadDiscardsStaged
  decide

/-- Claim C9 amended: the chunked remote read never removes the staged
temporary buffer it creates — on every exit path the buffer named after
the prior creation count remains staged — whereas the remote header
read does remove its staged buffer before returning. -/
theorem C9_chunk_keeps_staged (remote : List Nat) (H : MdaHeader)
    (i N : Nat) (st : TmpState) :
    ((_read_chunk_1d_remote remote H i N st).2.created =
        st.created ++ [st.created.length] ∧
      (_read_chunk_1d_remote remote H i N st).2.removed = st.removed) ∧
    (∀ remote2 : List Nat, ∀ st2 : TmpState,
      (_read_header_remote remote2 st2).2.removed =
        st2.removed ++ [st2.created.length]) :=
  ⟨⟨rfl, rfl⟩, fun _ _ => rfl⟩

/-- Concrete array file for C1: a 2x3 uint8 array of zeros. -/
def c1file : List Nat := headerBytes Dt.uint8 [2, 3] ++
  (List.replicate 6 ([0] : List Nat)).flatten

/-- Concrete appended buffer for C1 whose first dimension (5) differs
from the stored first dimension (2). -/
def c1X : Mda := ⟨Dt.uint8, [5, 2], List.replicate 10 [1]⟩

/-- Claim C1 (code bug): `appendmda` is meant to reject a buffer whose
non-final dimensions differ from the stored ones, but the check in the
source compares `X.shape[j] != X.shape[j]` — a value against itself —
so the mismatched append below (stored dims [2,3], buffer dims [5,2],
first dimensions 2 and 5 differ) is accepted instead of rejected. -/
theorem C1_mismatch_not_rejected :
    (mkMdaHeader Dt.uint8 [2, 3]).dims.getD 0 0 ≠ c1X.dims.getD 0 0 ∧
    _read_header c1file = some (mkMdaHeader Dt.uint8 [2, 3]) ∧
    (appendmda c1X c1file).isSome = true := by
  refine ⟨by decide, by decide, by decide⟩

theorem read_header_width_derived (s : List Nat) (H : MdaHeader)
    (h : _read_header s = some H) :
    H.num_bytes_per_entry = get_num_bytes_per_entry_from_dt H.dt := by
  simp only [_read_header, Option.bind_eq_bind, Option.bind_eq_some] at h
  obtain ⟨⟨c1, r1⟩, hc1, ⟨w, r2⟩, hw2, ⟨nd, r3⟩, hnd, h⟩ := h
  dsimp only at h
  split at h
  · split at h
    · exact absurd h (by simp)
    · rw [Option.bind_eq_some] at h
      obtain ⟨⟨dims, s4⟩, hdims, h⟩ := h
      cases hdt : _dt_from_dt_code c1 with
      | none =>
        rw [hdt] at h
        exact absurd h (by simp)
      | some dt0 =>
        rw [hdt] at h
        injection h with h
        rw [← h]
        rfl
  · split at h
    · exact absurd h (by simp)
    · rw [Option.bind_eq_some] at h
      obtain ⟨⟨dims, s4⟩, hdims, h⟩ := h
      cases hdt : _dt_from_dt_code c1 with
      | none =>
        rw [hdt] at h
        exact absurd h (by simp)
      | some dt0 =>
        rw [hdt] at h
        injection h with h
        rw [← h]
        rfl

/-- Claim C6 amended: when the stored bytes-per-entry field disagrees
with the byte width derived from the element type code, `decode_header`
still succeeds (the mismatch is tolerated — the stored field is read
and then ignored), but the decoded header carries the width re-derived
from the type code, not the stored field value. -/
theorem C6_width_from_code :
    (∀ s : List Nat, ∀ H : MdaHeader, _read_header s = some H →
      H.num_bytes_per_entry = get_num_bytes_per_entry_from_dt H.dt) ∧
    (∀ dt : Dt, ∀ w : Int, ∀ dims : List Int, ∀ rest : List Nat,
      -(2 ^ 31) ≤ w → w < 2 ^ 31 → 1 ≤ dims.length → dims.length ≤ 6 →
      (∀ d ∈ dims, 0 ≤ d ∧ d < 2 ^ 31) →
      _read_header (encInt32 (_dt_code_from_dt dt) ++ (encInt32 w ++
        (encInt32 (dims.length : Int) ++
          ((dims.map encInt32).flatten ++ rest)))) =
        some (mkMdaHeader dt dims)) :=
  ⟨read_header_width_derived,
    fun dt w dims rest hw1 hw2 h1 h2 hd =>
      read_header_narrow dt w dims rest hw1 hw2 h1 h2 hd⟩

/-- Witness for C6 at a concrete stream: element code -3 (float32,
derived width 4) with stored width field 99 decodes successfully and
the decoded width is 4, the derived one. -/
theorem C6_width_from_code_witness :
    _read_header (encInt32 (_dt_code_from_dt Dt.float32) ++ (encInt32 99 ++
        (encInt32 1 ++ (([(2 : Int)].map encInt32).flatten ++ [])))) =
      some (mkMdaHeader Dt.float32 [2]) ∧
    (mkMdaHeader Dt.float32 [2]).num_bytes_per_entry =
      get_num_bytes_per_entry_from_dt (mkMdaHeader Dt.float32 [2]).dt :=
  ⟨C6_width_from_code.2 Dt.float32 99 [2] [] (by decide) (by decide)
      (by decide) (by decide) (by decide),
    C6_width_from_code.1 _ _
      (C6_width_from_code.2 Dt.float32 99 [2] [] (by decide) (by decide)
        (by decide) (by decide) (by decide))⟩

/-- Concrete byte stream for the C6 counterexample: code -3 (float32,
derived width 4), stored bytes-per-entry 7, one dimension of size 2. -/
def c6stream : List Nat :=
  encInt32 (-3) ++ (encInt32 7 ++ (encInt32 1 ++ encInt32 2))

/-- Counterexample to claim C6 as stated: on a stream whose stored
bytes-per-entry field (7) disagrees with the width derived from the
type code (-3, float32, width 4), the decode succeeds but the decoded
header's bytes-per-entry is 4 — the derived width — and not the stored
field value 7. -/
theorem C6_counterexample :
    (_read_header c6stream).map MdaHeader.num_bytes_per_entry = some 4 ∧
    c6stream = encInt32 (-3) ++ (encInt32 7 ++ (encInt32 1 ++ encInt32 2)) ∧
    (4 : Nat) ≠ 7 :=
  ⟨by decide, rfl, by decide⟩

/-- Claim C5: for every valid header (dimension count in [1,6],
supported element type, positive dimensions, each dimension encodable),
encoding and then decoding returns the header unchanged, in both
narrow and wide dimension modes; wide mode is selected exactly when
some dimension exceeds 2*10^9; and in wide mode the count field is
written negated with each dimension as 8 bytes. -/
theorem C5_header_roundtrip (dt : Dt) (dims : List Int)
    (h1 : 1 ≤ dims.length) (h2 : dims.length ≤ 6)
    (hd : ∀ d ∈ dims, 0 < d ∧ d < 2 ^ 63) :
    ∃ hb, _write_header_bytes (mkMdaHeader dt dims) = some hb ∧
      _read_header hb = some (mkMdaHeader dt dims) ∧
      ((mkMdaHeader dt dims).uses64bitdims = true ↔
        ∃ d ∈ dims, 2 * 10 ^ 9 < d) ∧
      ((mkMdaHeader dt dims).uses64bitdims = true →
        hb = encInt32 (_dt_code_from_dt dt) ++
          encInt32 (get_num_bytes_per_entry_from_dt dt) ++
          (encInt32 (-(dims.length : Int)) ++ (dims.map encInt64).flatten)) := by
  have hd0 : ∀ d ∈ dims, 0 ≤ d ∧ d < 2 ^ 63 :=
    fun d hdm => ⟨le_of_lt (hd d hdm).1, (hd d hdm).2⟩
  refine ⟨headerBytes dt dims, ?_, ?_, ?_, ?_⟩
  · rw [write_header_bytes_eq dt dims h2 hd0]
    rfl
  · have h := read_header_headerBytes dt dims [] h1 h2 hd0
    rwa [List.append_nil] at h
  · rw [mk_uses64, decide_eq_true_eq]
    cases hds : dims with
    | nil => rw [hds] at h1; simp at h1
    | cons a t =>
      rw [show (2 * 10 ^ 9 : Int) = 2000000000 from by norm_num]
      exact listMax_lt_iff a t 2000000000
  · intro hwide
    rw [mk_uses64, decide_eq_true_eq] at hwide
    rw [headerBytes, if_pos hwide]

/-- Witness for C5 at a concrete wide-mode header: one dimension of
2000000001 (above the 2*10^9 threshold). -/
theorem C5_header_roundtrip_witness :
    (1 ≤ ([(2000000001 : Int)]).length ∧ ([(2000000001 : Int)]).length ≤ 6 ∧
      ∀ d ∈ [(2000000001 : Int)], 0 < d ∧ d < 2 ^ 63) ∧
    ∃ hb, _write_header_bytes (mkMdaHeader Dt.float32 [2000000001]) = some hb ∧
      _read_header hb = some (mkMdaHeader Dt.float32 [2000000001]) ∧
      ((mkMdaHeader Dt.float32 [2000000001]).uses64bitdims = true ↔
        ∃ d ∈ [(2000000001 : Int)], 2 * 10 ^ 9 < d) ∧
      ((mkMdaHeader Dt.float32 [2000000001]).uses64bitdims = true →
        hb = encInt32 (_dt_code_from_dt Dt.float32) ++
          encInt32 (get_num_bytes_per_entry_from_dt Dt.float32) ++
          (encInt32 (-(([(2000000001 : Int)]).length : Int)) ++
            ([(2000000001 : Int)].map encInt64).flatten)) :=
  ⟨⟨by decide, by decide, by decide⟩,
    C5_header_roundtrip Dt.float32 [2000000001] (by decide) (by decide)
      (by decide)⟩

/-- Claim C2 amended: for every well-formed buffer with 1 to 6 axes, a
supported element type, every dimension at most 2*10^9 and the total
element count below 2^63 (the reader's element-count arithmetic is
64-bit), writing with `_writemda` succeeds and reading the file back
returns the buffer bit-for-bit — same element bytes, shape and type.
Beyond the 2*10^9 threshold the claim fails (see the counterexample):
the writer always encodes a narrow header but the reader then
misderives the header length. -/
theorem C2_roundtrip (X : Mda) (hWF : X.WF)
    (h1 : 1 ≤ X.dims.length) (h2 : X.dims.length ≤ 6)
    (hsmall : ∀ d ∈ X.dims, d ≤ 2 * 10 ^ 9)
    (hprod : prodInt X.dims < 2 ^ 63) :
    ∃ s, _writemda X = some s ∧ readmda s = some X := by
  obtain ⟨hnn, hlen, hw⟩ := hWF
  have hsmall2 : ∀ d ∈ X.dims, d ≤ 2000000000 := by
    intro d hdm
    have := hsmall d hdm
    omega
  have hbounds : ∀ d ∈ X.dims, -(2 ^ 31) ≤ d ∧ d < 2 ^ 31 := fun d hdm =>
    ⟨by have := hnn d hdm; omega, by have := hsmall2 d hdm; omega⟩
  refine ⟨_, writemda_eq X hbounds (by omega), ?_⟩
  have hwide : ¬ listMax X.dims > 2000000000 := by
    rw [not_lt]
    apply listMax_le_of_all X.dims (by
      cases hds : X.dims with
      | nil => rw [hds] at h1; simp at h1
      | cons a t => simp) 2000000000 hsmall2
  have hshape : encInt32 (_dt_code_from_dt X.dt) ++
      (encInt32 (get_num_bytes_per_entry_from_dt X.dt) ++
      (encInt32 (X.dims.length : Int) ++
      ((X.dims.map encInt32).flatten ++ X.data.flatten))) =
      headerBytes X.dt X.dims ++ X.data.flatten := by
    rw [headerBytes, if_neg hwide]
    simp [List.append_assoc]
  rw [hshape]
  exact readmda_encoded X.dt X.dims X.data h1 h2
    (fun d hdm => ⟨hnn d hdm, by have := hsmall2 d hdm; omega⟩) hprod hlen hw

/-- The 2x3 float32 buffer [[1,2,3],[4,5,6]] of the specification
scenario, in column-major element order 1,4,2,5,3,6 with IEEE-754
little-endian bytes. -/
def demo2x3 : Mda :=
  ⟨Dt.float32, [2, 3],
    [[0, 0, 128, 63], [0, 0, 128, 64], [0, 0, 0, 64],
     [0, 0, 160, 64], [0, 0, 64, 64], [0, 0, 192, 64]]⟩

/-- Witness for C2 on the concrete 2x3 float32 scenario buffer. -/
theorem C2_roundtrip_witness :
    (demo2x3.WF ∧ 1 ≤ demo2x3.dims.length ∧ demo2x3.dims.length ≤ 6 ∧
      (∀ d ∈ demo2x3.dims, d ≤ 2 * 10 ^ 9) ∧ prodInt demo2x3.dims < 2 ^ 63) ∧
    ∃ s, _writemda demo2x3 = some s ∧ readmda s = some demo2x3 :=
  ⟨⟨⟨by decide, by decide, by decide⟩, by decide, by decide, by decide,
      by decide⟩,
    C2_roundtrip demo2x3 ⟨by decide, by decide, by decide⟩ (by decide)
      (by decide) (by decide) (by decide)⟩

/-- Claim C10: `_writemda` always encodes the dimension count as a
4-byte integer holding the (nonnegative) number of axes and every
dimension as a 4-byte integer — the produced header is always the
narrow form, never the 8-byte wide form, whatever the dimensions. -/
theorem C10_write_always_narrow (X : Mda) (s : List Nat)
    (h : _writemda X = some s) :
    s = encInt32 (_dt_code_from_dt X.dt) ++
      (encInt32 (get_num_bytes_per_entry_from_dt X.dt) ++
      (encInt32 (X.dims.length : Int) ++
      ((X.dims.map encInt32).flatten ++ X.data.flatten))) ∧
    (0 : Int) ≤ (X.dims.length : Int) ∧
    (encInt32 (X.dims.length : Int)).length = 4 ∧
    ∀ d ∈ X.dims, (encInt32 d).length = 4 :=
  ⟨writemda_some X s h, by omega, encInt32_length _,
    fun d _ => encInt32_length d⟩

/-- The input for the C10 witness: a buffer whose first dimension
2000000001 exceeds the 2*10^9 wide-mode threshold (its second dimension
is 0, so it has no elements and the file is small). -/
def c10X : Mda := ⟨Dt.uint8, [2000000001, 0], []⟩

/-- Witness for C10 at a buffer with a dimension above the wide-mode
threshold: the write succeeds and still lays down the narrow header. -/
theorem C10_write_always_narrow_witness :
    ((2000000001 : Int) > 2 * 10 ^ 9) ∧
    _writemda c10X = some ([254, 255, 255, 255] ++ ([1, 0, 0, 0] ++
      ([2, 0, 0, 0] ++ ([1, 148, 53, 119, 0, 0, 0, 0] ++ [])))) ∧
    (([254, 255, 255, 255] ++ ([1, 0, 0, 0] ++ ([2, 0, 0, 0] ++
        ([1, 148, 53, 119, 0, 0, 0, 0] ++ [])))) =
      encInt32 (_dt_code_from_dt c10X.dt) ++
        (encInt32 (get_num_bytes_per_entry_from_dt c10X.dt) ++
        (encInt32 (c10X.dims.length : Int) ++
        ((c10X.dims.map encInt32).flatten ++ c10X.data.flatten)))) ∧
    (0 : Int) ≤ (c10X.dims.length : Int) :=
  ⟨by decide, by decide,
    (C10_write_always_narrow c10X ([254, 255, 255, 255] ++ ([1, 0, 0, 0] ++
      ([2, 0, 0, 0] ++ ([1, 148, 53, 119, 0, 0, 0, 0] ++ [])))) (by decide)).1,
    (C10_write_always_narrow c10X ([254, 255, 255, 255] ++ ([1, 0, 0, 0] ++
      ([2, 0, 0, 0] ++ ([1, 148, 53, 119, 0, 0, 0, 0] ++ [])))) (by decide)).2.1⟩

/-- Claim C3: on a well-formed array file with an opened handle (a
decoded header), a flat in-bounds range read returns exactly the
elements at flat positions [start, start+count) of the full decode,
and it reads them from byte offset
`header_size + num_bytes_per_entry * start`. -/
theorem C3_chunk_equals_slice (dt : Dt) (dims : List Int)
    (data : List (List Nat)) (s : List Nat) (H : MdaHeader)
    (start count : Nat)
    (hfile : wfFile dt dims data s)
    (hH : _read_header s = some H)
    (_hbound : start + count ≤ data.length) :
    _read_chunk_1d s H (start : Int) count =
      some ((data.drop start).take count) ∧
    readmda s = some ⟨dt, dims, data⟩ ∧
    _read_chunk_1d s H (start : Int) count =
      some ((chunkElems H.num_bytes_per_entry
        (s.drop (H.header_size + H.num_bytes_per_entry * start))).take count) := by
  have hHmk : H = mkMdaHeader dt dims := by
    rw [read_header_wfFile dt dims data s hfile] at hH
    injection hH with hH
    exact hH.symm
  subst hHmk
  obtain ⟨h1, h2, h3, h4, h5, h6, h7, h8⟩ := hfile
  refine ⟨read_chunk_wf dt dims data s ⟨h1, h2, h3, h4, h5, h6, h7, h8⟩ start count,
    ?_, read_chunk_offset_form s (mkMdaHeader dt dims) start count⟩
  rw [wfFile_s dt dims data s ⟨h1, h2, h3, h4, h5, h6, h7, h8⟩]
  exact readmda_encoded dt dims data h1 h2
    (fun d hdm => ⟨le_of_lt (h3 d hdm).1, (h3 d hdm).2⟩) h4 h5 h6

/-- The byte string of the 2x3 float32 scenario file. -/
def demoFile : List Nat := headerBytes Dt.float32 [2, 3] ++ demo2x3.data.flatten

/-- Witness for C3 on the 2x3 float32 scenario file: reading 2 elements
from flat position 2 (the middle column) returns elements 2.0 and 5.0. -/
theorem C3_chunk_equals_slice_witness :
    (wfFile Dt.float32 [2, 3] demo2x3.data demoFile ∧
      _read_header demoFile = some (mkMdaHeader Dt.float32 [2, 3]) ∧
      2 + 2 ≤ demo2x3.data.length) ∧
    _read_chunk_1d demoFile (mkMdaHeader Dt.float32 [2, 3]) (2 : Nat) 2 =
      some ((demo2x3.data.drop 2).take 2) ∧
    readmda demoFile = some ⟨Dt.float32, [2, 3], demo2x3.data⟩ :=
  ⟨⟨⟨by decide, by decide, by decide, by decide, by decide, by decide,
      by decide, by decide⟩, by decide, by decide⟩,
    (C3_chunk_equals_slice Dt.float32 [2, 3] demo2x3.data demoFile
      (mkMdaHeader Dt.float32 [2, 3]) 2 2
      ⟨by decide, by decide, by decide, by decide, by decide, by decide,
        by decide, by decide⟩ (by decide) (by decide)).1,
    (C3_chunk_equals_slice Dt.float32 [2, 3] demo2x3.data demoFile
      (mkMdaHeader Dt.float32 [2, 3]) 2 2
      ⟨by decide, by decide, by decide, by decide, by decide, by decide,
        by decide, by decide⟩ (by decide) (by decide)).2.1⟩

theorem exists_gt_of_listMax_gt (l : List Int) (c : Int) (hne : l ≠ [])
    (h : c < listMax l) : ∃ x ∈ l, c < x := by
  cases l with
  | nil => exact absurd rfl hne
  | cons a t => exact (listMax_lt_iff a t c).mp h

theorem le_listMax_of_append (front : List Int) (dlast x : Int)
    (hf : x ∈ front) : x ≤ listMax (front ++ [dlast]) := by
  cases hfr : front with
  | nil => rw [hfr] at hf; simp at hf
  | cons a t =>
    have : x ∈ (a :: t) ++ [dlast] := List.mem_append_left _ (hfr ▸ hf)
    rw [List.cons_append] at this
    exact le_listMax a (t ++ [dlast]) x (by simpa using this)

theorem append_mode_iff (front : List Int) (dlast xlast : Int)
    (hx : 0 ≤ xlast)
    (hmode : listMax (front ++ [dlast]) ≤ 2000000000 →
      dlast + xlast ≤ 2000000000) :
    listMax (front ++ [dlast + xlast]) > 2000000000 ↔
      listMax (front ++ [dlast]) > 2000000000 := by
  constructor
  · intro hnew
    by_contra hold
    rw [not_lt] at hold
    have hall : ∀ x ∈ front ++ [dlast + xlast], x ≤ 2000000000 := by
      intro x hxm
      rcases List.mem_append.mp hxm with hf | hl
      · exact le_trans (le_listMax_of_append front dlast x hf) hold
      · rw [List.mem_singleton] at hl
        rw [hl]
        exact hmode hold
    have := listMax_le_of_all (front ++ [dlast + xlast]) (by simp) 2000000000 hall
    omega
  · intro hold
    obtain ⟨x, hxm, hxgt⟩ :=
      exists_gt_of_listMax_gt (front ++ [dlast]) 2000000000 (by simp) hold
    rcases List.mem_append.mp hxm with hf | hl
    · exact lt_listMax_of_mem (front ++ [dlast + xlast]) 2000000000 x
        (List.mem_append_left _ hf) hxgt
    · rw [List.mem_singleton] at hl
      refine lt_listMax_of_mem (front ++ [dlast + xlast]) 2000000000
        (dlast + xlast) (List.mem_append_right _ (by simp)) ?_
      omega


/-- Claim C4 amended: a successful `appendmda` of a buffer whose
leading dimensions match the stored ones onto a well-formed array file
yields a file that reads back as the concatenation along the last axis
of the old array and the appended buffer — provided the updated last
dimension does not cross the 2*10^9 wide-dimension threshold (in the
crossing case the append still succeeds but the read-back then fails
instead of yielding the concatenation) and the shapes stay within the
encodable 64-bit bounds.  In the column-major flat layout used by the format,
concatenation along the last axis of arrays agreeing on all other axes
is exactly concatenation of the flat element sequences; the new element
bytes sit at byte offset
`header_size + num_bytes_per_entry * old_element_count`, and the data
bytes before that offset (past the rewritten header) are unchanged. -/
theorem C4_append (dt : Dt) (front : List Int) (dlast xlast : Int)
    (data Xdata : List (List Nat)) (s : List Nat)
    (hfile : wfFile dt (front ++ [dlast]) data s)
    (hX : Mda.WF ⟨dt, front ++ [xlast], Xdata⟩)
    (hsum63 : dlast + xlast < 2 ^ 63)
    (hmode : listMax (front ++ [dlast]) ≤ 2000000000 →
      dlast + xlast ≤ 2000000000)
    (hprodsum : prodInt (front ++ [dlast]) + prodInt (front ++ [xlast]) < 2 ^ 63) :
    ∃ s2, appendmda ⟨dt, front ++ [xlast], Xdata⟩ s = some s2 ∧
      readmda s2 = some ⟨dt, front ++ [dlast + xlast], data ++ Xdata⟩ ∧
      s2.drop ((mkMdaHeader dt (front ++ [dlast])).header_size +
        (mkMdaHeader dt (front ++ [dlast])).num_bytes_per_entry *
          (prodInt (front ++ [dlast])).toNat) = Xdata.flatten ∧
      (s2.drop (mkMdaHeader dt (front ++ [dlast])).header_size).take
          ((mkMdaHeader dt (front ++ [dlast])).num_bytes_per_entry *
            (prodInt (front ++ [dlast])).toNat) =
        (s.drop (mkMdaHeader dt (front ++ [dlast])).header_size).take
          ((mkMdaHeader dt (front ++ [dlast])).num_bytes_per_entry *
            (prodInt (front ++ [dlast])).toNat) := by
  obtain ⟨h1, h2, h3, h4, h5, h6, h7, h8⟩ := hfile
  obtain ⟨hXnn, hXlen, hXw⟩ := hX
  have hfile' : wfFile dt (front ++ [dlast]) data s := ⟨h1, h2, h3, h4, h5, h6, h7, h8⟩
  have hxnn : (0 : Int) ≤ xlast := hXnn xlast (by simp)
  have hdpos : 0 < dlast := (h3 dlast (by simp)).1
  have hflag := append_mode_iff front dlast xlast hxnn hmode
  have hdec := read_header_wfFile dt (front ++ [dlast]) data s hfile'
  unfold appendmda
  rw [hdec]
  simp only [Option.bind_eq_bind, Option.some_bind]
  rw [if_neg (by simp [mkMdaHeader])]
  rw [if_neg (by simp)]
  have hmkdims : (mkMdaHeader dt (front ++ [dlast])).dims = front ++ [dlast] := rfl
  have hXdims : (⟨dt, front ++ [xlast], Xdata⟩ : Mda).dims = front ++ [xlast] := rfl
  have hlm1 : (mkMdaHeader dt (front ++ [dlast])).dims.length - 1 = front.length := by
    simp [mkMdaHeader]
  have hlm2 : (front ++ [dlast]).length - 1 = front.length := by simp
  simp only [hmkdims, hXdims, hlm2, getD_concat_self, set_concat_self]
  have hnd_bounds : ∀ d ∈ front ++ [dlast + xlast], 0 ≤ d ∧ d < 2 ^ 63 := by
    intro d hdm
    rcases List.mem_append.mp hdm with hf | hl
    · have := h3 d (List.mem_append_left _ hf)
      exact ⟨le_of_lt this.1, this.2⟩
    · rw [List.mem_singleton] at hl
      subst hl
      constructor <;> omega
  have hnd_narrow : ¬ listMax (front ++ [dlast]) > 2000000000 →
      ∀ d ∈ front ++ [dlast + xlast], d < 2 ^ 31 := by
    intro hnw d hdm
    rw [not_lt] at hnw
    rcases List.mem_append.mp hdm with hf | hl
    · have := le_listMax_of_append front dlast d hf
      omega
    · rw [List.mem_singleton] at hl
      subst hl
      have := hmode hnw
      omega
  rw [write_header_bytes_update dt (front ++ [dlast]) (front ++ [dlast + xlast])
    h2 hnd_bounds hnd_narrow]
  simp only [Option.bind_eq_bind, Option.some_bind]
  have hhb2 : encInt32 (_dt_code_from_dt dt) ++
      encInt32 (get_num_bytes_per_entry_from_dt dt) ++
      (if listMax (front ++ [dlast]) > 2000000000 then
        encInt32 (-((front ++ [dlast]).length : Int)) ++
          ((front ++ [dlast + xlast]).map encInt64).flatten
       else
        encInt32 ((front ++ [dlast]).length : Int) ++
          ((front ++ [dlast + xlast]).map encInt32).flatten) =
      headerBytes dt (front ++ [dlast + xlast]) := by
    rw [headerBytes, if_congr hflag rfl rfl,
      show ((front ++ [dlast + xlast]).length : Int) = ((front ++ [dlast]).length : Int) from by simp]
  rw [hhb2]
  have hnn : ∀ d ∈ front ++ [dlast], 0 ≤ d := fun d hdm => le_of_lt (h3 d hdm).1
  have hp0 : 0 ≤ prodInt (front ++ [dlast]) := prodInt_nonneg _ hnn
  have hnp : npProd (front ++ [dlast]) = prodInt (front ++ [dlast]) :=
    npProd_exact _ hnn h4
  rw [hnp]
  have hcast : (((mkMdaHeader dt (front ++ [dlast])).num_bytes_per_entry *
      (prodInt (front ++ [dlast])).toNat : Nat) : Int) =
      ((mkMdaHeader dt (front ++ [dlast])).num_bytes_per_entry : Int) *
        prodInt (front ++ [dlast]) := by
    push_cast [Int.toNat_of_nonneg hp0]
    ring
  rw [if_neg (by omega)]
  have htn : ((((mkMdaHeader dt (front ++ [dlast])).header_size : Int)) +
      ((mkMdaHeader dt (front ++ [dlast])).num_bytes_per_entry : Int) *
        prodInt (front ++ [dlast])).toNat =
      (mkMdaHeader dt (front ++ [dlast])).header_size +
        (mkMdaHeader dt (front ++ [dlast])).num_bytes_per_entry *
          (prodInt (front ++ [dlast])).toNat := by
    omega
  rw [htn]
  have hhs_eq : (mkMdaHeader dt (front ++ [dlast + xlast])).header_size =
      (mkMdaHeader dt (front ++ [dlast])).header_size := by
    by_cases hw : listMax (front ++ [dlast]) > 2000000000
    · simp [mkMdaHeader, hw, hflag.mpr hw]
    · have hw2 : ¬ listMax (front ++ [dlast + xlast]) > 2000000000 :=
        fun hc => hw (hflag.mp hc)
      simp [mkMdaHeader, hw, hw2]
  have hdrop_s : s.drop (headerBytes dt (front ++ [dlast + xlast])).length =
      data.flatten := by
    rw [headerBytes_length, hhs_eq, ← headerBytes_length,
      wfFile_s dt (front ++ [dlast]) data s hfile']
    exact List.drop_left _ _
  rw [hdrop_s]
  have hs1len : (headerBytes dt (front ++ [dlast + xlast]) ++ data.flatten).length =
      (mkMdaHeader dt (front ++ [dlast])).header_size +
        (mkMdaHeader dt (front ++ [dlast])).num_bytes_per_entry *
          (prodInt (front ++ [dlast])).toNat := by
    rw [List.length_append, headerBytes_length, hhs_eq,
      flatten_length_uniform (get_num_bytes_per_entry_from_dt dt) data h6, h5]
    rfl
  rw [← hs1len, overwriteAt_append]
  refine ⟨_, rfl, ?_, ?_, ?_⟩
  · have hsplit : (headerBytes dt (front ++ [dlast + xlast]) ++ data.flatten) ++
        Xdata.flatten =
        headerBytes dt (front ++ [dlast + xlast]) ++ (data ++ Xdata).flatten := by
      rw [List.append_assoc, List.flatten_append]
    rw [hsplit]
    have hXnn2 : ∀ d ∈ front ++ [xlast], 0 ≤ d := hXnn
    have hXlen2 : Xdata.length = (prodInt (front ++ [xlast])).toNat := hXlen
    have hprodX0 : 0 ≤ prodInt (front ++ [xlast]) := prodInt_nonneg _ hXnn2
    have hpnew : prodInt (front ++ [dlast + xlast]) =
        prodInt (front ++ [dlast]) + prodInt (front ++ [xlast]) := by
      rw [prodInt_concat, prodInt_concat, prodInt_concat, mul_add]
    exact readmda_encoded dt (front ++ [dlast + xlast]) (data ++ Xdata)
      (by simp) (by simpa using h2) hnd_bounds (by rw [hpnew]; exact hprodsum)
      (by
        rw [List.length_append, h5, hXlen2, hpnew]
        omega)
      (by
        intro e he
        rcases List.mem_append.mp he with h | h
        · exact h6 e h
        · exact hXw e h)
  · exact List.drop_left _ _
  · have hdrop2 : ((headerBytes dt (front ++ [dlast + xlast]) ++ data.flatten) ++
        Xdata.flatten).drop (mkMdaHeader dt (front ++ [dlast])).header_size =
        data.flatten ++ Xdata.flatten := by
      rw [List.append_assoc]
      exact List.drop_left' (by rw [headerBytes_length, hhs_eq])
    have hdrop3 : s.drop (mkMdaHeader dt (front ++ [dlast])).header_size =
        data.flatten := by
      rw [wfFile_s dt (front ++ [dlast]) data s hfile']
      exact List.drop_left' (headerBytes_length dt (front ++ [dlast]))
    have hflatlen : data.flatten.length =
        (mkMdaHeader dt (front ++ [dlast])).num_bytes_per_entry *
          (prodInt (front ++ [dlast])).toNat := by
      rw [flatten_length_uniform (get_num_bytes_per_entry_from_dt dt) data h6, h5]
      rfl
    rw [hdrop2, hdrop3, ← hflatlen, List.take_left, List.take_length]

/-- Concrete pre-append file for the C4 witness: a 2x2 uint8 array. -/
def c4file : List Nat := headerBytes Dt.uint8 [2, 2] ++
  ([[1], [2], [3], [4]] : List (List Nat)).flatten

/-- Witness for C4: appending a 2x1 uint8 buffer to a 2x2 array file
succeeds and the result reads back as the 2x3 concatenation. -/
theorem C4_append_witness :
    (wfFile Dt.uint8 ([2] ++ [2]) [[1], [2], [3], [4]] c4file ∧
      Mda.WF ⟨Dt.uint8, [2] ++ [1], [[5], [6]]⟩ ∧
      prodInt ([2] ++ [2]) + prodInt ([2] ++ [1]) < 2 ^ 63) ∧
    ∃ s2, appendmda ⟨Dt.uint8, [2] ++ [1], [[5], [6]]⟩ c4file = some s2 ∧
      readmda s2 = some ⟨Dt.uint8, [2] ++ [2 + 1], [[1], [2], [3], [4]] ++ [[5], [6]]⟩ ∧
      s2.drop ((mkMdaHeader Dt.uint8 ([2] ++ [2])).header_size +
        (mkMdaHeader Dt.uint8 ([2] ++ [2])).num_bytes_per_entry *
          (prodInt ([2] ++ [2])).toNat) = ([[5], [6]] : List (List Nat)).flatten ∧
      (s2.drop (mkMdaHeader Dt.uint8 ([2] ++ [2])).header_size).take
          ((mkMdaHeader Dt.uint8 ([2] ++ [2])).num_bytes_per_entry *
            (prodInt ([2] ++ [2])).toNat) =
        (c4file.drop (mkMdaHeader Dt.uint8 ([2] ++ [2])).header_size).take
          ((mkMdaHeader Dt.uint8 ([2] ++ [2])).num_bytes_per_entry *
            (prodInt ([2] ++ [2])).toNat) :=
  ⟨⟨⟨by decide, by decide, by decide, by decide, by decide, by decide,
      by decide, by decide⟩, ⟨by decide, by decide, by decide⟩, by decide⟩,
    C4_append Dt.uint8 [2] 2 1 [[1], [2], [3], [4]] [[5], [6]] c4file
      ⟨by decide, by decide, by decide, by decide, by decide, by decide,
        by decide, by decide⟩
      ⟨by decide, by decide, by decide⟩ (by decide) (fun _ => by decide)
      (by decide)⟩

theorem flatten_replicate_single (n : Nat) (b : Nat) :
    (List.replicate n ([b] : List Nat)).flatten = List.replicate n b := by
  induction n with
  | zero => rfl
  | succ k ih => simp [List.replicate_succ, ih]

theorem writemda_mk (dt : Dt) (dims : List Int) (data : List (List Nat))
    (hd : ∀ d ∈ dims, -(2 ^ 31) ≤ d ∧ d < 2 ^ 31)
    (hlen31 : (dims.length : Int) < 2 ^ 31) :
    _writemda ⟨dt, dims, data⟩ = some (encInt32 (_dt_code_from_dt dt) ++
      (encInt32 (get_num_bytes_per_entry_from_dt dt) ++
      (encInt32 (dims.length : Int) ++
      ((dims.map encInt32).flatten ++ data.flatten)))) :=
  writemda_eq ⟨dt, dims, data⟩ hd hlen31

def c2bigX : Mda := ⟨Dt.uint8, [2000000001], List.replicate 2000000001 [0]⟩

def c2bigS : List Nat := encInt32 (-2) ++ (encInt32 1 ++ (encInt32 1 ++
  (encInt32 2000000001 ++ List.replicate 2000000001 0)))

theorem c2big_write : _writemda c2bigX = some c2bigS := by
  show _writemda ⟨Dt.uint8, [2000000001], List.replicate 2000000001 [0]⟩ =
    some c2bigS
  rw [writemda_mk Dt.uint8 [2000000001] (List.replicate 2000000001 [0])
    (by decide) (by decide), flatten_replicate_single]
  unfold c2bigS
  simp only [List.map_cons, List.map_nil, List.flatten_cons, List.flatten_nil,
    List.append_nil]
  rfl

theorem readmda_none_of_short (s : List Nat) (H : MdaHeader)
    (hdec : _read_header s = some H)
    (hcond : 0 ≤ H.dimprod ∧ ∀ d ∈ H.dims, 0 ≤ d)
    (hshort : (chunkElems H.num_bytes_per_entry (s.drop H.header_size)).length <
      H.dimprod.toNat) :
    readmda s = none := by
  unfold readmda
  rw [hdec]
  simp only [Option.bind_eq_bind, Option.some_bind]
  rw [if_pos hcond, if_neg (by omega)]

theorem c2big_read : readmda c2bigS = none := by
  have hdec : _read_header c2bigS = some (mkMdaHeader Dt.uint8 [2000000001]) := by
    have h := read_header_narrow Dt.uint8 1 [2000000001]
      (List.replicate 2000000001 0) (by decide) (by decide) (by decide)
      (by decide) (by decide)
    simp only [List.map_cons, List.map_nil, List.flatten_cons, List.flatten_nil,
      List.append_nil] at h
    show _read_header (encInt32 (-2) ++ (encInt32 1 ++ (encInt32 1 ++
      (encInt32 2000000001 ++ List.replicate 2000000001 0)))) = _
    have hc : encInt32 (-2) = encInt32 (_dt_code_from_dt Dt.uint8) := rfl
    rw [hc]
    exact h
  have hdrop : c2bigS.drop (mkMdaHeader Dt.uint8 [2000000001]).header_size =
      List.replicate (2000000001 - 4) 0 := by
    have hs : c2bigS = (encInt32 (-2) ++ encInt32 1 ++ encInt32 1 ++
        encInt32 2000000001) ++ List.replicate 2000000001 0 := by
      unfold c2bigS
      simp only [List.append_assoc]
    have hhs : (mkMdaHeader Dt.uint8 [2000000001]).header_size = 20 := by decide
    have hlen : (encInt32 (-2) ++ encInt32 1 ++ encInt32 1 ++
        encInt32 2000000001).length = 16 := by decide
    rw [hhs, hs, show (20 : Nat) = (encInt32 (-2) ++ encInt32 1 ++ encInt32 1 ++
      encInt32 2000000001).length + 4 from by rw [hlen], List.drop_append,
      List.drop_replicate]
  have hchunk : chunkElems
      (mkMdaHeader Dt.uint8 [2000000001]).num_bytes_per_entry
      (List.replicate (2000000001 - 4) 0) =
      List.replicate (2000000001 - 4) ([0] : List Nat) := by
    have h := chunkElems_flatten 1 (by decide)
      (List.replicate (2000000001 - 4) ([0] : List Nat))
      (by
        intro e he
        rw [List.eq_of_mem_replicate he]
        rfl)
    rw [flatten_replicate_single] at h
    exact h
  refine readmda_none_of_short c2bigS (mkMdaHeader Dt.uint8 [2000000001]) hdec
    ⟨by decide, by decide⟩ ?_
  rw [hdrop, hchunk, List.length_replicate]
  decide

/-- Counterexample to claim C2 as stated: the buffer `c2bigX` has one
axis and a supported element type, `_writemda` succeeds on it, yet
reading the file back fails instead of returning the buffer — the
writer lays down a narrow 16-byte header, while the reader, seeing the
dimension 2000000001 above the 2*10^9 threshold, derives a 20-byte
wide header length and misses the start of the data. -/
theorem C2_counterexample :
    _writemda c2bigX = some c2bigS ∧ readmda c2bigS = none :=
  ⟨c2big_write, c2big_read⟩

theorem appendmda_raw (dt : Dt) (front : List Int) (dlast xlast : Int)
    (data Xdata : List (List Nat)) (s : List Nat)
    (hfile : wfFile dt (front ++ [dlast]) data s)
    (hx : (0 : Int) ≤ xlast)
    (hsum63 : dlast + xlast < 2 ^ 63)
    (hnarrow31 : ¬ listMax (front ++ [dlast]) > 2000000000 →
      dlast + xlast < 2 ^ 31) :
    appendmda ⟨dt, front ++ [xlast], Xdata⟩ s =
      some (((encInt32 (_dt_code_from_dt dt) ++
        encInt32 (get_num_bytes_per_entry_from_dt dt) ++
        (if listMax (front ++ [dlast]) > 2000000000 then
          encInt32 (-((front ++ [dlast]).length : Int)) ++
            ((front ++ [dlast + xlast]).map encInt64).flatten
         else
          encInt32 ((front ++ [dlast]).length : Int) ++
            ((front ++ [dlast + xlast]).map encInt32).flatten)) ++
        data.flatten) ++ Xdata.flatten) := by
  obtain ⟨h1, h2, h3, h4, h5, h6, h7, h8⟩ := hfile
  have hfile' : wfFile dt (front ++ [dlast]) data s := ⟨h1, h2, h3, h4, h5, h6, h7, h8⟩
  have hdpos : 0 < dlast := (h3 dlast (by simp)).1
  have hdec := read_header_wfFile dt (front ++ [dlast]) data s hfile'
  unfold appendmda
  rw [hdec]
  simp only [Option.bind_eq_bind, Option.some_bind]
  rw [if_neg (by simp [mkMdaHeader])]
  rw [if_neg (by simp)]
  have hmkdims : (mkMdaHeader dt (front ++ [dlast])).dims = front ++ [dlast] := rfl
  have hXdims : (⟨dt, front ++ [xlast], Xdata⟩ : Mda).dims = front ++ [xlast] := rfl
  have hlm2 : (front ++ [dlast]).length - 1 = front.length := by simp
  simp only [hmkdims, hXdims, hlm2, getD_concat_self, set_concat_self]
  have hnd_bounds : ∀ d ∈ front ++ [dlast + xlast], 0 ≤ d ∧ d < 2 ^ 63 := by
    intro d hdm
    rcases List.mem_append.mp hdm with hf | hl
    · have := h3 d (List.mem_append_left _ hf)
      exact ⟨le_of_lt this.1, this.2⟩
    · rw [List.mem_singleton] at hl
      subst hl
      constructor <;> omega
  have hnd_narrow : ¬ listMax (front ++ [dlast]) > 2000000000 →
      ∀ d ∈ front ++ [dlast + xlast], d < 2 ^ 31 := by
    intro hnw d hdm
    rcases List.mem_append.mp hdm with hf | hl
    · have h2e9 := le_listMax_of_append front dlast d hf
      rw [not_lt] at hnw
      omega
    · rw [List.mem_singleton] at hl
      subst hl
      exact hnarrow31 hnw
  rw [write_header_bytes_update dt (front ++ [dlast]) (front ++ [dlast + xlast])
    h2 hnd_bounds hnd_narrow]
  simp only [Option.bind_eq_bind, Option.some_bind]
  have hnn : ∀ d ∈ front ++ [dlast], 0 ≤ d := fun d hdm => le_of_lt (h3 d hdm).1
  have hp0 : 0 ≤ prodInt (front ++ [dlast]) := prodInt_nonneg _ hnn
  have hnp : npProd (front ++ [dlast]) = prodInt (front ++ [dlast]) :=
    npProd_exact _ hnn h4
  rw [hnp]
  have hcast : (((mkMdaHeader dt (front ++ [dlast])).num_bytes_per_entry *
      (prodInt (front ++ [dlast])).toNat : Nat) : Int) =
      ((mkMdaHeader dt (front ++ [dlast])).num_bytes_per_entry : Int) *
        prodInt (front ++ [dlast]) := by
    push_cast [Int.toNat_of_nonneg hp0]
    ring
  rw [if_neg (by omega)]
  have htn : ((((mkMdaHeader dt (front ++ [dlast])).header_size : Int)) +
      ((mkMdaHeader dt (front ++ [dlast])).num_bytes_per_entry : Int) *
        prodInt (front ++ [dlast])).toNat =
      (mkMdaHeader dt (front ++ [dlast])).header_size +
        (mkMdaHeader dt (front ++ [dlast])).num_bytes_per_entry *
          (prodInt (front ++ [dlast])).toNat := by
    omega
  rw [htn]
  have hlen_eq : (front ++ [dlast + xlast]).length = (front ++ [dlast]).length := by
    simp
  have hb2len : (encInt32 (_dt_code_from_dt dt) ++
      encInt32 (get_num_bytes_per_entry_from_dt dt) ++
      (if listMax (front ++ [dlast]) > 2000000000 then
        encInt32 (-((front ++ [dlast]).length : Int)) ++
          ((front ++ [dlast + xlast]).map encInt64).flatten
       else
        encInt32 ((front ++ [dlast]).length : Int) ++
          ((front ++ [dlast + xlast]).map encInt32).flatten)).length =
      (mkMdaHeader dt (front ++ [dlast])).header_size := by
    by_cases hw : listMax (front ++ [dlast]) > 2000000000
    · rw [if_pos hw]
      simp only [List.length_append, encInt32_length, flatten_map_enc64_length,
        hlen_eq]
      simp [mkMdaHeader, hw]
      ring
    · rw [if_neg hw]
      simp only [List.length_append, encInt32_length, flatten_map_enc32_length,
        hlen_eq]
      simp [mkMdaHeader, hw]
      ring
  have hdrop_s : s.drop (encInt32 (_dt_code_from_dt dt) ++
      encInt32 (get_num_bytes_per_entry_from_dt dt) ++
      (if listMax (front ++ [dlast]) > 2000000000 then
        encInt32 (-((front ++ [dlast]).length : Int)) ++
          ((front ++ [dlast + xlast]).map encInt64).flatten
       else
        encInt32 ((front ++ [dlast]).length : Int) ++
          ((front ++ [dlast + xlast]).map encInt32).flatten)).length =
      data.flatten := by
    rw [hb2len, ← headerBytes_length,
      wfFile_s dt (front ++ [dlast]) data s hfile']
    exact List.drop_left _ _
  rw [hdrop_s]
  have hs1len : ((encInt32 (_dt_code_from_dt dt) ++
      encInt32 (get_num_bytes_per_entry_from_dt dt) ++
      (if listMax (front ++ [dlast]) > 2000000000 then
        encInt32 (-((front ++ [dlast]).length : Int)) ++
          ((front ++ [dlast + xlast]).map encInt64).flatten
       else
        encInt32 ((front ++ [dlast]).length : Int) ++
          ((front ++ [dlast + xlast]).map encInt32).flatten)) ++
        data.flatten).length =
      (mkMdaHeader dt (front ++ [dlast])).header_size +
        (mkMdaHeader dt (front ++ [dlast])).num_bytes_per_entry *
          (prodInt (front ++ [dlast])).toNat := by
    rw [List.length_append, hb2len,
      flatten_length_uniform (get_num_bytes_per_entry_from_dt dt) data h6, h5]
    rfl
  rw [← hs1len, overwriteAt_append]

/-- The pre-append file of the C4 counterexample: a valid one-axis
uint8 array file with dimension 2000000000 — at the narrow/wide
threshold, but still narrow. -/
def c4bigFile : List Nat :=
  headerBytes Dt.uint8 [2000000000] ++ List.replicate 2000000000 0

/-- The file `appendmda` produces from `c4bigFile` and a one-element
buffer: the last dimension becomes 2000000001, still written as a
narrow header because the stale wide flag of the pre-append header is
reused. -/
def c4bigS2 : List Nat :=
  ((encInt32 (-2) ++ encInt32 1 ++
    (encInt32 1 ++ (([(2000000001 : Int)].map encInt32).flatten))) ++
    List.replicate 2000000000 0) ++ [7]

theorem c4big_wf : wfFile Dt.uint8 ([] ++ [2000000000])
    (List.replicate 2000000000 [0]) c4bigFile := by
  refine ⟨by decide, by decide, by decide, by decide, ?_, ?_, by decide, ?_⟩
  · simp only [List.length_replicate]
    decide
  · intro e he
    rw [List.eq_of_mem_replicate he]
    rfl
  · rw [flatten_replicate_single]
    unfold c4bigFile
    congr 1

theorem c4big_append :
    appendmda ⟨Dt.uint8, [] ++ [1], [[7]]⟩ c4bigFile = some c4bigS2 := by
  have h := appendmda_raw Dt.uint8 [] 2000000000 1
    (List.replicate 2000000000 [0]) [[7]] c4bigFile c4big_wf
    (by decide) (by decide) (fun _ => by decide)
  rw [h, if_neg (by decide : ¬ listMax ([] ++ [2000000000]) > 2000000000),
    flatten_replicate_single]
  unfold c4bigS2
  rfl

theorem c4big_read : readmda c4bigS2 = none := by
  have hdec : _read_header c4bigS2 = some (mkMdaHeader Dt.uint8 [2000000001]) := by
    have h := read_header_narrow Dt.uint8 1 [2000000001]
      (List.replicate 2000000000 0 ++ [7]) (by decide) (by decide) (by decide)
      (by decide) (by decide)
    have hshape : c4bigS2 = encInt32 (-2) ++
        (encInt32 1 ++ (encInt32 1 ++
          ((([(2000000001 : Int)].map encInt32).flatten) ++
            (List.replicate 2000000000 0 ++ [7])))) := by
      unfold c4bigS2
      simp only [List.append_assoc]
    rw [hshape]
    exact h
  have hdrop : c4bigS2.drop (mkMdaHeader Dt.uint8 [2000000001]).header_size =
      List.replicate (2000000000 - 4) 0 ++ [7] := by
    have hs2 : c4bigS2 = (encInt32 (-2) ++ encInt32 1 ++ encInt32 1 ++
        (([(2000000001 : Int)].map encInt32).flatten)) ++
        (List.replicate 2000000000 0 ++ [7]) := by
      unfold c4bigS2
      simp only [List.append_assoc]
    have hhs : (mkMdaHeader Dt.uint8 [2000000001]).header_size = 20 := by decide
    have hlen : (encInt32 (-2) ++ encInt32 1 ++ encInt32 1 ++
        (([(2000000001 : Int)].map encInt32).flatten)).length = 16 := by decide
    rw [hhs, hs2, show (20 : Nat) = (encInt32 (-2) ++ encInt32 1 ++ encInt32 1 ++
      (([(2000000001 : Int)].map encInt32).flatten)).length + 4 from by rw [hlen],
      List.drop_append,
      List.drop_append_of_le_length (by rw [List.length_replicate]; decide),
      List.drop_replicate]
  have hchunk : chunkElems
      (mkMdaHeader Dt.uint8 [2000000001]).num_bytes_per_entry
      (List.replicate (2000000000 - 4) 0 ++ [7]) =
      List.replicate (2000000000 - 4) ([0] : List Nat) ++ [[7]] := by
    have h := chunkElems_flatten 1 (by decide)
      (List.replicate (2000000000 - 4) ([0] : List Nat) ++ [[7]])
      (by
        intro e he
        rcases List.mem_append.mp he with hr | hs
        · rw [List.eq_of_mem_replicate hr]
          rfl
        · rw [List.mem_singleton] at hs
          rw [hs]
          rfl)
    rw [List.flatten_append, flatten_replicate_single] at h
    simp only [List.flatten_cons, List.flatten_nil, List.append_nil] at h
    exact h
  refine readmda_none_of_short c4bigS2 (mkMdaHeader Dt.uint8 [2000000001]) hdec
    ⟨by decide, by decide⟩ ?_
  rw [hdrop, hchunk, List.length_append, List.length_replicate]
  decide

/-- Counterexample to claim C4 as stated: `c4bigFile` is a valid
one-axis uint8 array file (it reads back as 2000000000 elements), and
appending a one-element buffer of the same rank succeeds — but the new
last dimension 2000000001 crosses the 2*10^9 wide-dimension threshold
while the stale header flag keeps the rewritten header narrow, so
reading the appended file back fails instead of yielding the
concatenation of the old array and the buffer. -/
theorem C4_counterexample :
    readmda c4bigFile =
      some ⟨Dt.uint8, [2000000000], List.replicate 2000000000 [0]⟩ ∧
    appendmda ⟨Dt.uint8, [1], [[7]]⟩ c4bigFile = some c4bigS2 ∧
    readmda c4bigS2 = none := by
  refine ⟨?_, c4big_append, c4big_read⟩
  have h := readmda_encoded Dt.uint8 [2000000000]
    (List.replicate 2000000000 [0]) (by decide) (by decide) (by decide)
    (by decide) (by simp only [List.length_replicate]; decide)
    (by
      intro e he
      rw [List.eq_of_mem_replicate he]
      rfl)
  rw [flatten_replicate_single] at h
  exact h
